import Mathlib

/-!
# ODrive firmware: `MotorControl/low_level.c`

A shallow embedding of the current-sensing path of `MotorControl/low_level.c`
(the ADC conversion-complete callback, the phase-current decoder, the mail
queue between the callback and the motor thread, and the PWM placeholder of
the motor thread), followed by the properties proved about it.

Conventions of the embedding.

* The decoder `phase_current_from_adcval` is embedded twice. In the first
  embedding a C `float` is an exact rational (`ℚ`): `3.3f` is `33/10`,
  `0.0005f` is `5/10000`, and `*`, `/` are exact; it serves the properties
  that do not depend on rounding. In the second, `binary32`, a `float` is an
  IEEE 754 binary32 value and every operation rounds to nearest, ties to even.
* A `uint32_t` is a natural number below `2^32`; an `int` is an integer in
  `[-2^31, 2^31)`; conversions and `int` arithmetic wrap (two's complement).
* In the first embedding an automatic variable that is read without having
  been assigned gets its value from `Uninit`, the indeterminate contents of
  the stack; in `binary32` such a read has no result (`none`).
* A C function that may spin forever or wait on the scheduler returns an
  `Outcome`, which carries the global state at the point it stopped.
-/

namespace ODrive

/-! ## Data model -/

/-- Modelled from the spec: the enumeration `DRV8301_ShuntAmpGain_e` is declared
in the gate-driver header, which is not part of the sources. The four named
enumerators are those the `switch` of `phase_current_from_adcval` lists;
`unlisted code` stands for any other value the integer-typed field can hold. -/
inductive DRV8301_ShuntAmpGain_e where
  | DRV8301_ShuntAmpGain_10VpV
  | DRV8301_ShuntAmpGain_20VpV
  | DRV8301_ShuntAmpGain_40VpV
  | DRV8301_ShuntAmpGain_80VpV
  | unlisted (code : Nat)
  deriving DecidableEq

open DRV8301_ShuntAmpGain_e

/-- Modelled from the spec: control register 2 of the gate-driver register
shadow (declared in the gate-driver header); only the field read by
`low_level.c` is kept. -/
structure DRV_SPI_8301_CTRL02_t where
  GAIN : DRV8301_ShuntAmpGain_e
  deriving DecidableEq

/-- Modelled from the spec: the host-side shadow `DRV_SPI_8301_Vars_t` of the
gate-driver registers (declared in the gate-driver header); the fields that
`low_level.c` only writes are omitted. -/
structure DRV_SPI_8301_Vars_t where
  Ctrl_Reg_2 : DRV_SPI_8301_CTRL02_t
  deriving DecidableEq

/-- Modelled from the spec: `Motor_t` is declared in `low_level.h`; the fields
are those the initialiser of `motor_configs` names (the gate-driver transport
handle is omitted). -/
structure Motor_t where
  shunt_conductance : ℚ
  maxcurrent : ℚ
  deriving DecidableEq

/-- The length of `motor_configs`: `sizeof(motor_configs)/sizeof(motor_configs[0])`. -/
abbrev num_motors : Nat := 1

/-- The initialiser of the global `motor_configs`, in exact arithmetic. -/
def motor_configs : Fin num_motors → Motor_t :=
  fun _ => { shunt_conductance := 1 / (5 / 10000), maxcurrent := 75 }

/-- The item type of the current-sense mail queue. -/
structure Iph_BC_queue_item_t where
  current_phB : ℚ
  current_phC : ℚ
  deriving DecidableEq

/-- Modelled from the spec: a CMSIS-RTOS mail queue (`osMailQDef`, `osMailQId`),
provided by the RTOS. A pool of `queue_sz` item blocks, of which `allocated`
are in use, and the FIFO `queue` of the items put and not yet got, oldest
first. -/
structure osMailQ where
  queue_sz : Nat
  allocated : Nat
  queue : List Iph_BC_queue_item_t
  deriving DecidableEq

/-- Modelled from the spec: the registers of the PWM timer `htim1.Instance`
that `low_level.c` accesses; each is a `uint32_t`. -/
structure TIM_TypeDef where
  ARR : Nat
  CCR1 : Nat
  CCR2 : Nat
  CCR3 : Nat
  CCR4 : Nat
  deriving DecidableEq

/-- Modelled from the spec: the identity of the ADC handle a callback argument
points to. `hadc2` and `hadc3` are the two globals `low_level.c` compares
with; `other n` is any other handle. -/
inductive ADC_Handle where
  | hadc2
  | hadc3
  | other (n : Nat)
  deriving DecidableEq

/-- Modelled from the spec: what the callback sees of an `ADC_HandleTypeDef*`:
which handle it is, and the rank-1 injected data register of its peripheral. -/
structure ADC_HandleTypeDef where
  self : ADC_Handle
  JDR1 : Nat
  deriving DecidableEq

/-- The global and static variables of `low_level.c` and the timer registers. -/
structure State where
  motor_configs : Fin num_motors → Motor_t
  gate_driver_regs : Fin 1 → DRV_SPI_8301_Vars_t
  M0_Iph_queue : osMailQ
  phB_current : ℚ
  htim1 : TIM_TypeDef

/-- The indeterminate initial contents of the automatic variables that
`low_level.c` declares without an initialiser. -/
structure Uninit where
  rev_gain : ℚ
  phC_current : ℚ
  deriving DecidableEq

/-- How a call ends: it returns a value, it spins forever in `safe_assert`, or
the calling task stays suspended in a blocking RTOS call. -/
inductive Outcome (σ α : Type) where
  | returned (value : α) (state : σ)
  | halted (state : σ)
  | blocked (state : σ)

/-- Sequencing of two statements. -/
def Outcome.bind {σ α β : Type} (x : Outcome σ α) (f : α → σ → Outcome σ β) : Outcome σ β :=
  match x with
  | .returned a s => f a s
  | .halted s => .halted s
  | .blocked s => .blocked s

/-! ## Machine integers -/

/-- Conversion of an integer to `uint32_t`. -/
def uint32_of_int (z : Int) : Nat := (z % 2 ^ 32).toNat

/-- Conversion of a `uint32_t` to `int`. -/
def int_of_uint32 (n : Nat) : Int :=
  if n % 2 ^ 32 < 2 ^ 31 then ((n % 2 ^ 32 : Nat) : Int) else ((n % 2 ^ 32 : Nat) : Int) - 2 ^ 32

/-- The result of an `int` operation whose exact value is `z`. -/
def wrap_int (z : Int) : Int := int_of_uint32 (uint32_of_int z)

/-! ## The current decoder -/

/-- The function `phase_current_from_adcval` of `low_level.c`, in exact arithmetic. -/
def phase_current_from_adcval (s : State) (u : Uninit) (ADCValue : Nat)
    (motornum : Fin num_motors) : ℚ :=
  let rev_gain : ℚ :=
    match (s.gate_driver_regs motornum).Ctrl_Reg_2.GAIN with
    | DRV8301_ShuntAmpGain_10VpV => 1 / 10
    | DRV8301_ShuntAmpGain_20VpV => 1 / 20
    | DRV8301_ShuntAmpGain_40VpV => 1 / 40
    | DRV8301_ShuntAmpGain_80VpV => 1 / 80
    | unlisted _ => u.rev_gain
  let adcval_bal : Int := wrap_int (int_of_uint32 ADCValue - 2 ^ 11)
  let amp_out_volt : ℚ := (33 / 10 / ((2 ^ 12 : Nat) : ℚ)) * (adcval_bal : ℚ)
  let shunt_volt : ℚ := amp_out_volt * rev_gain
  let current : ℚ := shunt_volt * (s.motor_configs motornum).shunt_conductance
  current

/-- The gain in V/V that an enumerator of `DRV8301_ShuntAmpGain_e` names. -/
def gain_VpV : DRV8301_ShuntAmpGain_e → Option ℚ
  | DRV8301_ShuntAmpGain_10VpV => some 10
  | DRV8301_ShuntAmpGain_20VpV => some 20
  | DRV8301_ShuntAmpGain_40VpV => some 40
  | DRV8301_ShuntAmpGain_80VpV => some 80
  | unlisted _ => none

/-! ## The mail queue -/

/-- Modelled from the spec: `osMailCreate` for a queue defined with `queue_sz`
items: the pool is unused and the queue is empty. -/
def osMailCreate (queue_sz : Nat) : osMailQ :=
  { queue_sz := queue_sz, allocated := 0, queue := [] }

/-- Modelled from the spec: `osMailAlloc` with timeout 0. It never waits: it
takes a block from the pool when one is free and returns `NULL` (`none`) when
the pool is exhausted. -/
def osMailAlloc (q : osMailQ) : Option osMailQ :=
  if q.allocated < q.queue_sz then some { q with allocated := q.allocated + 1 } else none

/-- Modelled from the spec: `osMailPut` of an allocated block whose contents
are `mail`: the item joins the queue behind the items already in it. -/
def osMailPut (q : osMailQ) (mail : Iph_BC_queue_item_t) : osMailQ :=
  { q with queue := q.queue ++ [mail] }

/-- Modelled from the spec: the status codes of an `osEvent`. -/
inductive osStatus where
  | osOK
  | osEventMail
  | osEventTimeout
  deriving DecidableEq

/-- Modelled from the spec: the `osEvent` that `osMailGet` returns: its status
and the item its `value.p` points to. -/
structure osEvent where
  status : osStatus
  value : Iph_BC_queue_item_t
  deriving DecidableEq

/-- Modelled from the spec: `osMailGet` with `osWaitForever`. With a mail in the
queue it returns the oldest one; with none (`none`) the calling task waits. -/
def osMailGet (q : osMailQ) : Option (osEvent × osMailQ) :=
  match q.queue with
  | [] => none
  | mail :: rest => some ({ status := osStatus.osEventMail, value := mail }, { q with queue := rest })

/-- Modelled from the spec: `osMailFree` gives a block back to the pool. -/
def osMailFree (q : osMailQ) : osMailQ :=
  { q with allocated := q.allocated - 1 }

/-! ## The conversion-complete callback -/

/-- The function `safe_assert`: it spins forever when its argument is zero. -/
def safe_assert (arg : Int) (s : State) : Outcome State Unit :=
  if arg = 0 then Outcome.halted s else Outcome.returned () s

/-- Modelled from the spec: `HAL_ADCEx_InjectedGetValue` for
`ADC_INJECTED_RANK_1`: the rank-1 injected data register, a `uint32_t`. -/
def HAL_ADCEx_InjectedGetValue (hadc : ADC_HandleTypeDef) : Nat := hadc.JDR1 % 2 ^ 32

/-- The function `pwm_trig_adc_cb` of `low_level.c`. -/
def pwm_trig_adc_cb (u : Uninit) (hadc : ADC_HandleTypeDef) (s : State) : Outcome State Unit :=
  let ADCValue := HAL_ADCEx_InjectedGetValue hadc
  if hadc.self = ADC_Handle.hadc2 then
    Outcome.returned () { s with phB_current := phase_current_from_adcval s u ADCValue 0 }
  else
    let fetched : Outcome State ℚ :=
      if hadc.self = ADC_Handle.hadc3 then
        Outcome.returned (phase_current_from_adcval s u ADCValue 0) s
      else
        (safe_assert 0 s).bind fun _ s1 => Outcome.returned u.phC_current s1
    fetched.bind fun phC_current s1 =>
      match osMailAlloc s1.M0_Iph_queue with
      | none => Outcome.returned () s1
      | some q =>
        Outcome.returned ()
          { s1 with M0_Iph_queue :=
              osMailPut q { current_phB := s1.phB_current, current_phC := phC_current } }

/-- The function `HAL_ADCEx_InjectedConvCpltCallback`: the entry point the HAL
calls for each conversion-complete interrupt. -/
def HAL_ADCEx_InjectedConvCpltCallback (u : Uninit) (hadc : ADC_HandleTypeDef) (s : State) :
    Outcome State Unit :=
  pwm_trig_adc_cb u hadc s

/-- The HAL delivering a sequence of conversion-complete notifications, one
after the other, with nothing else running in between. -/
def deliver (u : Uninit) : List ADC_HandleTypeDef → State → Outcome State Unit
  | [], s => Outcome.returned () s
  | hadc :: rest, s => (HAL_ADCEx_InjectedConvCpltCallback u hadc s).bind fun _ s1 => deliver u rest s1

/-- The two notifications of one conversion cycle, in the order the HAL issues
them: `hadc2` with raw sample `p.1`, then `hadc3` with raw sample `p.2`. -/
def cycle (p : Nat × Nat) : List ADC_HandleTypeDef :=
  [{ self := ADC_Handle.hadc2, JDR1 := p.1 }, { self := ADC_Handle.hadc3, JDR1 := p.2 }]

/-- The notifications of a sequence of conversion cycles. -/
def cycles : List (Nat × Nat) → List ADC_HandleTypeDef
  | [] => []
  | p :: ps => cycle p ++ cycles ps

/-! ## Startup and the motor thread -/

/-- The function `DRV8301_setup`, as far as the register shadow goes: for each
motor it selects the 40 V/V gain. The calls into the gate-driver transport are
taken to leave the shadow as written. -/
def DRV8301_setup (s : State) : State :=
  (List.finRange num_motors).foldl
    (fun s i => { s with gate_driver_regs := fun j =>
        if j = i then { Ctrl_Reg_2 := { GAIN := DRV8301_ShuntAmpGain_40VpV } }
        else s.gate_driver_regs j })
    s

/-- The function `start_adc_pwm`, as far as the timer registers go. -/
def start_adc_pwm (s : State) : State :=
  let half_load : Int := int_of_uint32 (s.htim1.ARR % 2 ^ 32 / 2)
  { s with htim1 :=
      { s.htim1 with
        CCR1 := uint32_of_int half_load
        CCR2 := uint32_of_int half_load
        CCR3 := uint32_of_int half_load
        CCR4 := 1 } }

/-- The function `init_motor_control`. -/
def init_motor_control (s : State) : State :=
  let s1 := { s with M0_Iph_queue := osMailCreate 2 }
  let s2 := DRV8301_setup s1
  start_adc_pwm s2

/-- One turn of the `for(;;)` loop of `motor_thread`. The value returned is the
pair of locals `M0_phB_current`, `M0_phC_current` read from the mail. -/
def motor_thread_loop (s : State) : Outcome State Iph_BC_queue_item_t :=
  match osMailGet s.M0_Iph_queue with
  | none => Outcome.blocked s
  | some (evt, q1) =>
    let s1 := { s with M0_Iph_queue := q1 }
    (safe_assert (if evt.status = osStatus.osEventMail then 1 else 0) s1).bind fun _ s2 =>
      let mail_ptr := evt.value
      let M0_phB_current := mail_ptr.current_phB
      let M0_phC_current := mail_ptr.current_phC
      let s3 := { s2 with M0_Iph_queue := osMailFree s2.M0_Iph_queue }
      let half_load : Int := int_of_uint32 (s3.htim1.ARR % 2 ^ 32 / 2)
      Outcome.returned { current_phB := M0_phB_current, current_phC := M0_phC_current }
        { s3 with htim1 :=
            { s3.htim1 with
              CCR1 := uint32_of_int (wrap_int (half_load - 400))
              CCR2 := uint32_of_int (wrap_int (half_load + 400))
              CCR3 := uint32_of_int (wrap_int (half_load + 400)) } }

/-- The state of a board before `motor_thread` starts: the static latch is
zero, the register shadow holds `gain` and the period register holds `ARR`. -/
def reset_state (gain : DRV8301_ShuntAmpGain_e) (ARR : Nat) : State :=
  { motor_configs := motor_configs
    gate_driver_regs := fun _ => { Ctrl_Reg_2 := { GAIN := gain } }
    M0_Iph_queue := { queue_sz := 0, allocated := 0, queue := [] }
    phB_current := 0
    htim1 := { ARR := ARR, CCR1 := 0, CCR2 := 0, CCR3 := 0, CCR4 := 0 } }

/-! ## The current decoder in binary32 -/

namespace binary32

/-- A value of the C type `float` (IEEE 754 binary32): a finite number, given
by the rational it stands for (the two zeros are not told apart), an infinity
with its sign, or a NaN. -/
inductive float where
  | finite (value : ℚ)
  | infinity (negative : Bool)
  | nan
  deriving DecidableEq

/-- The number of binary digits of `n`, for `n < 2 ^ fuel`. -/
def bit_length : Nat → Nat → Nat
  | 0, _ => 0
  | fuel + 1, n => if n = 0 then 0 else bit_length fuel (n / 2) + 1

/-- The integer `e` with `2 ^ e ≤ n / d < 2 ^ (e + 1)`, for positive `n` and `d`. -/
def floor_log2 (n d : Nat) : Int :=
  let e0 : Int := (bit_length n n : Int) - (bit_length d d : Int)
  let reached : Bool :=
    if 0 ≤ e0 then decide (d * 2 ^ e0.toNat ≤ n) else decide (d ≤ n * 2 ^ (-e0).toNat)
  if reached then e0 else e0 - 1

/-- The integer nearest to `num / den`, the even one of the two on a tie. -/
def nearest_even (num den : Nat) : Nat :=
  let k : Nat := num / den
  let r : Nat := num % den
  if 2 * r < den then k else if den < 2 * r then k + 1 else if k % 2 = 0 then k else k + 1

/-- Rounding of a rational to binary32, to nearest with ties to even: 24
significant bits, least exponent of the last place -149, and infinity from
`2 ^ 128` on. -/
def round_to_nearest (x : ℚ) : float :=
  if x = 0 then float.finite 0
  else
    let n : Nat := x.num.natAbs
    let d : Nat := x.den
    let e : Int := floor_log2 n d
    let q : Int := max (e - 23) (-149)
    let num : Nat := if 0 ≤ q then n else n * 2 ^ (-q).toNat
    let den : Nat := if 0 ≤ q then d * 2 ^ q.toNat else d
    let k : Nat := nearest_even num den
    if 2 ^ 128 * 2 ^ (-q).toNat ≤ k * 2 ^ q.toNat then float.infinity (decide (x < 0))
    else
      float.finite
        ((if x < 0 then -1 else 1) * ((k * 2 ^ q.toNat : Nat) : ℚ) / ((2 ^ (-q).toNat : Nat) : ℚ))

/-- Multiplication of two `float` values. -/
def mul : float → float → float
  | float.finite a, float.finite b => round_to_nearest (a * b)
  | float.finite a, float.infinity s =>
    if a = 0 then float.nan else float.infinity (xor s (decide (a < 0)))
  | float.infinity s, float.finite b =>
    if b = 0 then float.nan else float.infinity (xor s (decide (b < 0)))
  | float.infinity s, float.infinity t => float.infinity (xor s t)
  | float.nan, _ => float.nan
  | _, float.nan => float.nan

/-- Division of two `float` values; a zero divisor counts as positive. -/
def div : float → float → float
  | float.finite a, float.finite b =>
    if b = 0 then (if a = 0 then float.nan else float.infinity (decide (a < 0)))
    else round_to_nearest (a / b)
  | float.finite _, float.infinity _ => float.finite 0
  | float.infinity s, float.finite b => float.infinity (xor s (decide (b < 0)))
  | float.infinity _, float.infinity _ => float.nan
  | float.nan, _ => float.nan
  | _, float.nan => float.nan

/-- Conversion of an `int` to `float`. -/
def of_int (z : Int) : float := round_to_nearest (z : ℚ)

/-- The value of a decimal `float` literal such as `3.3f`. -/
def literal (x : ℚ) : float := round_to_nearest x

/-- Negation of a `float` value. -/
def neg : float → float
  | float.finite a => float.finite (-a)
  | float.infinity s => float.infinity (!s)
  | float.nan => float.nan

/-- The `float` fields of `Motor_t`, as binary32 values. -/
structure Motor_t where
  shunt_conductance : float
  maxcurrent : float
  deriving DecidableEq

/-- The initialiser of the global `motor_configs`, evaluated in binary32. -/
def motor_configs : Fin num_motors → Motor_t :=
  fun _ =>
    { shunt_conductance := div (literal 1) (literal (5 / 10000))
      maxcurrent := literal 75 }

/-- The function `phase_current_from_adcval` of `low_level.c`, with its `float`
arithmetic in binary32. The result is `none` when the `switch` assigns nothing
to `rev_gain`, which the function then reads uninitialised. -/
def phase_current_from_adcval (gate_driver_regs : Fin 1 → DRV_SPI_8301_Vars_t)
    (motor_configs : Fin num_motors → Motor_t) (ADCValue : Nat)
    (motornum : Fin num_motors) : Option float :=
  let rev_gain : Option float :=
    match (gate_driver_regs motornum).Ctrl_Reg_2.GAIN with
    | DRV8301_ShuntAmpGain_10VpV => some (div (literal 1) (literal 10))
    | DRV8301_ShuntAmpGain_20VpV => some (div (literal 1) (literal 20))
    | DRV8301_ShuntAmpGain_40VpV => some (div (literal 1) (literal 40))
    | DRV8301_ShuntAmpGain_80VpV => some (div (literal 1) (literal 80))
    | unlisted _ => none
  let adcval_bal : Int := wrap_int (int_of_uint32 ADCValue - 2 ^ 11)
  let amp_out_volt : float :=
    mul (div (literal (33 / 10)) (of_int (2 ^ 12))) (of_int adcval_bal)
  match rev_gain with
  | none => none
  | some rev_gain =>
    let shunt_volt : float := mul amp_out_volt rev_gain
    let current : float := mul shunt_volt (motor_configs motornum).shunt_conductance
    some current

end binary32

/-! ## Specification-side definitions -/

/-- The Paired Observation of one conversion cycle, in the spec's words: phase B
is the decoded channel-A sample and phase C the decoded channel-B sample. -/
def paired_observation (s : State) (u : Uninit) (p : Nat × Nat) : Iph_BC_queue_item_t :=
  { current_phB := phase_current_from_adcval s u p.1 0
    current_phC := phase_current_from_adcval s u p.2 0 }

/-- What the spec asks of one (channel-A, channel-B) pair: the latch takes the
decoded channel-A sample, and the Paired Observation of the pair is appended
to the mailbox when a slot is free and dropped otherwise. -/
def emit_pair (u : Uninit) (s : State) (p : Nat × Nat) : State :=
  { s with
    phB_current := (paired_observation s u p).current_phB
    M0_Iph_queue :=
      if s.M0_Iph_queue.allocated < s.M0_Iph_queue.queue_sz then
        { s.M0_Iph_queue with
          allocated := s.M0_Iph_queue.allocated + 1
          queue := s.M0_Iph_queue.queue ++ [paired_observation s u p] }
      else s.M0_Iph_queue }

/-! ## Helper lemmas -/

theorem adcval_bal_of_lt (r : Nat) (h : r < 4096) :
    wrap_int (int_of_uint32 r - 2 ^ 11) = (r : Int) - 2048 := by
  unfold wrap_int int_of_uint32 uint32_of_int
  have h1 : r % 2 ^ 32 = r := Nat.mod_eq_of_lt (by omega)
  rw [h1]
  simp only [show r < 2 ^ 31 from by omega, if_true]
  by_cases hr : 2048 ≤ r
  · have h2 : (((r : Int) - 2 ^ 11) % 2 ^ 32).toNat = r - 2048 := by omega
    rw [h2]
    have h3 : (r - 2048) % 2 ^ 32 = r - 2048 := Nat.mod_eq_of_lt (by omega)
    rw [h3]
    simp only [show r - 2048 < 2 ^ 31 from by omega, if_true]
    omega
  · have h2 : (((r : Int) - 2 ^ 11) % 2 ^ 32).toNat = 2 ^ 32 + r - 2048 := by omega
    rw [h2]
    have h3 : (2 ^ 32 + r - 2048) % 2 ^ 32 = 2 ^ 32 + r - 2048 := Nat.mod_eq_of_lt (by omega)
    rw [h3]
    simp only [show ¬ (2 ^ 32 + r - 2048 < 2 ^ 31) from by omega, if_false]
    omega

theorem gate_driver_regs_DRV8301_setup (s : State) (m : Fin num_motors) :
    ((DRV8301_setup s).gate_driver_regs m).Ctrl_Reg_2.GAIN = DRV8301_ShuntAmpGain_40VpV := by
  have hm : m = 0 := Subsingleton.elim _ _
  subst hm
  simp [DRV8301_setup, List.finRange]

theorem motor_configs_DRV8301_setup (s : State) :
    (DRV8301_setup s).motor_configs = s.motor_configs := by
  simp [DRV8301_setup, List.finRange]

theorem gate_driver_regs_init_motor_control (s : State) (m : Fin num_motors) :
    ((init_motor_control s).gate_driver_regs m).Ctrl_Reg_2.GAIN = DRV8301_ShuntAmpGain_40VpV := by
  simp only [init_motor_control, start_adc_pwm]
  exact gate_driver_regs_DRV8301_setup _ m

theorem motor_configs_init_motor_control (s : State) :
    (init_motor_control s).motor_configs = s.motor_configs := by
  simp only [init_motor_control, start_adc_pwm]
  exact motor_configs_DRV8301_setup _

theorem phase_current_of_gain (s : State) (u : Uninit) (r : Nat) (m : Fin num_motors) (g : ℚ)
    (hr : r < 4096) (hg : gain_VpV (s.gate_driver_regs m).Ctrl_Reg_2.GAIN = some g) :
    phase_current_from_adcval s u r m
      = ((r : ℚ) - 2048) * (33 / 10 / 4096) * (1 / g) * (s.motor_configs m).shunt_conductance := by
  unfold phase_current_from_adcval
  simp only [adcval_bal_of_lt r hr]
  cases hG : (s.gate_driver_regs m).Ctrl_Reg_2.GAIN <;> rw [hG] at hg <;>
    simp only [gain_VpV, Option.some.injEq] at hg <;> first | (subst hg; push_cast; ring) | exact absurd hg (by simp)

theorem int_of_uint32_mod (n : Nat) : int_of_uint32 (n % 2 ^ 32) = int_of_uint32 n := by
  unfold int_of_uint32
  rw [Nat.mod_mod]

theorem phase_current_mod (s : State) (u : Uninit) (n : Nat) (m : Fin num_motors) :
    phase_current_from_adcval s u (n % 2 ^ 32) m = phase_current_from_adcval s u n m := by
  unfold phase_current_from_adcval
  rw [int_of_uint32_mod]

theorem phase_current_congr (s t : State) (u : Uninit) (n : Nat) (m : Fin num_motors)
    (hg : t.gate_driver_regs = s.gate_driver_regs) (hm : t.motor_configs = s.motor_configs) :
    phase_current_from_adcval t u n m = phase_current_from_adcval s u n m := by
  unfold phase_current_from_adcval
  rw [hg, hm]

theorem phase_current_mod_lit (s : State) (u : Uninit) (n : Nat) (m : Fin num_motors) :
    phase_current_from_adcval s u (n % 4294967296) m = phase_current_from_adcval s u n m :=
  phase_current_mod s u n m

theorem phase_current_latch (s : State) (u : Uninit) (v : ℚ) (n : Nat) (m : Fin num_motors) :
    phase_current_from_adcval { s with phB_current := v } u n m
      = phase_current_from_adcval s u n m := rfl

theorem cb_hadc2 (u : Uninit) (s : State) (a : Nat) :
    pwm_trig_adc_cb u { self := ADC_Handle.hadc2, JDR1 := a } s
      = Outcome.returned () { s with phB_current := phase_current_from_adcval s u a 0 } := by
  simp [pwm_trig_adc_cb, HAL_ADCEx_InjectedGetValue, phase_current_mod_lit]

theorem cb_hadc3 (u : Uninit) (s : State) (b : Nat) :
    pwm_trig_adc_cb u { self := ADC_Handle.hadc3, JDR1 := b } s
      = Outcome.returned ()
          (if s.M0_Iph_queue.allocated < s.M0_Iph_queue.queue_sz then
            { s with M0_Iph_queue :=
                { s.M0_Iph_queue with
                  allocated := s.M0_Iph_queue.allocated + 1
                  queue := s.M0_Iph_queue.queue ++
                    [{ current_phB := s.phB_current
                       current_phC := phase_current_from_adcval s u b 0 }] } }
          else s) := by
  by_cases h : s.M0_Iph_queue.allocated < s.M0_Iph_queue.queue_sz <;>
    simp [pwm_trig_adc_cb, HAL_ADCEx_InjectedGetValue, phase_current_mod_lit, Outcome.bind,
      osMailAlloc, osMailPut, h]

theorem cb_other (u : Uninit) (s : State) (hadc : ADC_HandleTypeDef)
    (h2 : hadc.self ≠ ADC_Handle.hadc2) (h3 : hadc.self ≠ ADC_Handle.hadc3) :
    pwm_trig_adc_cb u hadc s = Outcome.halted s := by
  simp [pwm_trig_adc_cb, h2, h3, safe_assert, Outcome.bind]

theorem cb_hadc3_after_hadc2 (u : Uninit) (s : State) (a b : Nat) :
    pwm_trig_adc_cb u { self := ADC_Handle.hadc3, JDR1 := b }
        { s with phB_current := phase_current_from_adcval s u a 0 }
      = Outcome.returned () (emit_pair u s (a, b)) := by
  rw [cb_hadc3]
  by_cases h : s.M0_Iph_queue.allocated < s.M0_Iph_queue.queue_sz
  · simp only [h, if_true, emit_pair, paired_observation, phase_current_latch]
  · simp only [h, if_false, emit_pair, paired_observation]

theorem deliver_cycle (u : Uninit) (s : State) (p : Nat × Nat) :
    deliver u (cycle p) s = Outcome.returned () (emit_pair u s p) := by
  simp only [cycle, deliver, HAL_ADCEx_InjectedConvCpltCallback, cb_hadc2, Outcome.bind,
    cb_hadc3_after_hadc2]

theorem deliver_append (u : Uninit) (xs ys : List ADC_HandleTypeDef) (s : State) :
    deliver u (xs ++ ys) s = (deliver u xs s).bind fun _ s1 => deliver u ys s1 := by
  induction xs generalizing s with
  | nil => simp [deliver, Outcome.bind]
  | cons x xs ih =>
    simp only [List.cons_append, deliver]
    cases h : HAL_ADCEx_InjectedConvCpltCallback u x s <;> simp [Outcome.bind, ih]

theorem deliver_cycles (u : Uninit) (ps : List (Nat × Nat)) (s : State) :
    deliver u (cycles ps) s = Outcome.returned () (ps.foldl (emit_pair u) s) := by
  induction ps generalizing s with
  | nil => simp [cycles, deliver]
  | cons p ps ih =>
    simp only [cycles, deliver_append, deliver_cycle, Outcome.bind, List.foldl_cons, ih]

theorem paired_observation_congr (s t : State) (u : Uninit)
    (hg : t.gate_driver_regs = s.gate_driver_regs) (hm : t.motor_configs = s.motor_configs) :
    paired_observation t u = paired_observation s u := by
  funext p
  simp only [paired_observation, phase_current_congr s t u _ 0 hg hm]

theorem foldl_emit_pair (u : Uninit) (ps : List (Nat × Nat)) (s : State) :
    (ps.foldl (emit_pair u) s).motor_configs = s.motor_configs
      ∧ (ps.foldl (emit_pair u) s).gate_driver_regs = s.gate_driver_regs
      ∧ (ps.foldl (emit_pair u) s).htim1 = s.htim1
      ∧ (ps.foldl (emit_pair u) s).M0_Iph_queue.queue_sz = s.M0_Iph_queue.queue_sz
      ∧ (ps.foldl (emit_pair u) s).M0_Iph_queue.allocated
          = s.M0_Iph_queue.allocated
            + min ps.length (s.M0_Iph_queue.queue_sz - s.M0_Iph_queue.allocated)
      ∧ (ps.foldl (emit_pair u) s).M0_Iph_queue.queue
          = s.M0_Iph_queue.queue
            ++ (ps.map (paired_observation s u)).take
                (s.M0_Iph_queue.queue_sz - s.M0_Iph_queue.allocated) := by
  induction ps generalizing s with
  | nil => simp
  | cons p ps ih =>
    obtain ⟨h1, h2, h3, h4, h5, h6⟩ := ih (emit_pair u s p)
    have e : paired_observation (emit_pair u s p) u = paired_observation s u :=
      paired_observation_congr s _ u rfl rfl
    simp only [List.foldl_cons, h1, h2, h3, h4, h5, h6, e]
    by_cases h : s.M0_Iph_queue.allocated < s.M0_Iph_queue.queue_sz
    · obtain ⟨k, hk⟩ : ∃ k, s.M0_Iph_queue.queue_sz - s.M0_Iph_queue.allocated = k + 1 :=
        ⟨s.M0_Iph_queue.queue_sz - s.M0_Iph_queue.allocated - 1, by omega⟩
      have hk2 : s.M0_Iph_queue.queue_sz - (s.M0_Iph_queue.allocated + 1) = k := by omega
      have ht : (emit_pair u s p).M0_Iph_queue
          = { queue_sz := s.M0_Iph_queue.queue_sz
              allocated := s.M0_Iph_queue.allocated + 1
              queue := s.M0_Iph_queue.queue ++ [paired_observation s u p] } := by
        simp only [emit_pair, h, if_true]
      rw [ht]
      simp only [hk, hk2, List.map_cons, List.take_succ_cons, List.append_assoc,
        List.singleton_append, List.length_cons]
      and_intros <;> first | rfl | trivial | omega
    · have hk : s.M0_Iph_queue.queue_sz - s.M0_Iph_queue.allocated = 0 := by omega
      have ht : (emit_pair u s p).M0_Iph_queue = s.M0_Iph_queue := by
        simp only [emit_pair, h, if_false]
      rw [ht]
      simp only [hk, List.take_zero, List.append_nil, Nat.min_zero, Nat.add_zero]
      and_intros <;> first | rfl | trivial

theorem M0_Iph_queue_init_motor_control (s : State) :
    (init_motor_control s).M0_Iph_queue = osMailCreate 2 := by
  simp [init_motor_control, start_adc_pwm, DRV8301_setup, List.finRange]

theorem phB_current_init_motor_control (s : State) :
    (init_motor_control s).phB_current = s.phB_current := by
  simp [init_motor_control, start_adc_pwm, DRV8301_setup, List.finRange]

theorem ARR_init_motor_control (s : State) :
    (init_motor_control s).htim1.ARR = s.htim1.ARR := by
  simp [init_motor_control, start_adc_pwm, DRV8301_setup, List.finRange]

theorem phase_current_configured (s : State) (u : Uninit) (r : Nat) (m : Fin num_motors)
    (hr : r < 4096)
    (hg : (s.gate_driver_regs m).Ctrl_Reg_2.GAIN = DRV8301_ShuntAmpGain_40VpV)
    (hm : s.motor_configs = motor_configs) :
    phase_current_from_adcval s u r m = ((r : ℚ) - 2048) * (165 / 4096) := by
  rw [phase_current_of_gain s u r m 40 hr (by rw [hg]; rfl), hm]
  simp only [motor_configs]
  ring

theorem phase_current_startup (s : State) (u : Uninit) (r : Nat) (m : Fin num_motors)
    (hr : r < 4096) (hm : s.motor_configs = motor_configs) :
    phase_current_from_adcval (init_motor_control s) u r m = ((r : ℚ) - 2048) * (165 / 4096) :=
  phase_current_configured _ u r m hr (gate_driver_regs_init_motor_control s m)
    (by rw [motor_configs_init_motor_control, hm])

theorem uint32_of_int_wrap_int (z : Int) : uint32_of_int (wrap_int z) = uint32_of_int z := by
  unfold wrap_int int_of_uint32 uint32_of_int
  split <;> omega

theorem half_load_eq (ARR : Nat) (h : ARR < 2 ^ 32) :
    int_of_uint32 (ARR % 2 ^ 32 / 2) = ((ARR / 2 : Nat) : Int) := by
  unfold int_of_uint32
  have h1 : ARR % 2 ^ 32 = ARR := Nat.mod_eq_of_lt h
  have h2 : ARR / 2 % 2 ^ 32 = ARR / 2 := Nat.mod_eq_of_lt (by omega)
  rw [h1, h2]
  simp only [show ARR / 2 < 2 ^ 31 from by omega, if_true]

theorem motor_thread_loop_cons (s : State) (mail : Iph_BC_queue_item_t)
    (rest : List Iph_BC_queue_item_t) (hq : s.M0_Iph_queue.queue = mail :: rest) :
    motor_thread_loop s
      = Outcome.returned mail
          { s with
            M0_Iph_queue :=
              { s.M0_Iph_queue with allocated := s.M0_Iph_queue.allocated - 1, queue := rest }
            htim1 :=
              { s.htim1 with
                CCR1 := uint32_of_int (int_of_uint32 (s.htim1.ARR % 2 ^ 32 / 2) - 400)
                CCR2 := uint32_of_int (int_of_uint32 (s.htim1.ARR % 2 ^ 32 / 2) + 400)
                CCR3 := uint32_of_int (int_of_uint32 (s.htim1.ARR % 2 ^ 32 / 2) + 400) } } := by
  unfold motor_thread_loop
  simp only [osMailGet, hq, safe_assert, if_true, Outcome.bind, osMailFree,
    uint32_of_int_wrap_int]
  simp

theorem motor_thread_loop_nil (s : State) (hq : s.M0_Iph_queue.queue = []) :
    motor_thread_loop s = Outcome.blocked s := by
  unfold motor_thread_loop
  simp only [osMailGet, hq]

theorem stale_latch_trace (u : Uninit) (s0 : State) (a b1 b2 : Nat)
    (hq : s0.M0_Iph_queue = osMailCreate 2) :
    (∃ s2 s3,
        deliver u (cycle (a, b1)) s0 = Outcome.returned () s2
        ∧ s2.M0_Iph_queue.queue
            = [{ current_phB := phase_current_from_adcval s0 u a 0
                 current_phC := phase_current_from_adcval s0 u b1 0 }]
        ∧ pwm_trig_adc_cb u { self := ADC_Handle.hadc3, JDR1 := b2 } s2
            = Outcome.returned () s3
        ∧ s3.M0_Iph_queue.queue
            = [{ current_phB := phase_current_from_adcval s0 u a 0
                 current_phC := phase_current_from_adcval s0 u b1 0 },
               { current_phB := phase_current_from_adcval s0 u a 0
                 current_phC := phase_current_from_adcval s0 u b2 0 }])
      ∧ ∃ s1,
        pwm_trig_adc_cb u { self := ADC_Handle.hadc3, JDR1 := a } s0 = Outcome.returned () s1
        ∧ s1.M0_Iph_queue.queue
            = [{ current_phB := s0.phB_current
                 current_phC := phase_current_from_adcval s0 u a 0 }] := by
  obtain ⟨mc, gr, q, l, t⟩ := s0
  simp only at hq
  subst hq
  refine ⟨⟨_, _, deliver_cycle _ _ _, ?_, cb_hadc3 _ _ _, ?_⟩, ⟨_, cb_hadc3 _ _ _, ?_⟩⟩
  · simp [emit_pair, paired_observation, osMailCreate]
  · simp [emit_pair, paired_observation, osMailCreate, phase_current_from_adcval]
  · simp [osMailCreate]

theorem hadc3_pairs_latch (u : Uninit) (s : State) (a b1 b2 : Nat)
    (h : s.M0_Iph_queue.allocated < s.M0_Iph_queue.queue_sz) :
    pwm_trig_adc_cb u { self := ADC_Handle.hadc3, JDR1 := b2 } s
        = Outcome.returned ()
            { s with M0_Iph_queue :=
                { s.M0_Iph_queue with
                  allocated := s.M0_Iph_queue.allocated + 1
                  queue := s.M0_Iph_queue.queue ++
                    [{ current_phB := s.phB_current
                       current_phC := phase_current_from_adcval s u b2 0 }] } }
      ∧ ∃ s1, deliver u (cycle (a, b1)) s = Outcome.returned () s1
          ∧ s1.phB_current = phase_current_from_adcval s u a 0
          ∧ s1.M0_Iph_queue.queue
              = s.M0_Iph_queue.queue ++
                  [{ current_phB := phase_current_from_adcval s u a 0
                     current_phC := phase_current_from_adcval s u b1 0 }]
          ∧ (s1.M0_Iph_queue.allocated < s1.M0_Iph_queue.queue_sz →
              ∃ s2, pwm_trig_adc_cb u { self := ADC_Handle.hadc3, JDR1 := b2 } s1
                  = Outcome.returned () s2
                ∧ s2.phB_current = phase_current_from_adcval s u a 0
                ∧ s2.M0_Iph_queue.queue
                    = s.M0_Iph_queue.queue ++
                        [{ current_phB := phase_current_from_adcval s u a 0
                           current_phC := phase_current_from_adcval s u b1 0 },
                         { current_phB := phase_current_from_adcval s u a 0
                           current_phC := phase_current_from_adcval s u b2 0 }]) := by
  refine ⟨by rw [cb_hadc3, if_pos h], _, deliver_cycle u s (a, b1), ?_, ?_, fun h1 => ?_⟩
  · simp only [emit_pair, paired_observation]
  · simp only [emit_pair, h, if_true, paired_observation]
  · refine ⟨_, by rw [cb_hadc3, if_pos h1], ?_, ?_⟩
    · simp only [emit_pair, paired_observation]
    · simp only [emit_pair, h, if_true, paired_observation, List.append_assoc,
        List.singleton_append, phase_current_latch]
      rfl

theorem three_cycles_trace (u : Uninit) (s0 : State) (p1 p2 p3 : Nat × Nat)
    (hq : s0.M0_Iph_queue = osMailCreate 2) :
    ∃ sa s4 s5,
      deliver u (cycles [p1, p2] ++ [{ self := ADC_Handle.hadc2, JDR1 := p3.1 }]) s0
          = Outcome.returned () sa
        ∧ sa.M0_Iph_queue.queue = [paired_observation s0 u p1, paired_observation s0 u p2]
        ∧ pwm_trig_adc_cb u { self := ADC_Handle.hadc3, JDR1 := p3.2 } sa
            = Outcome.returned () sa
        ∧ deliver u (cycles [p1, p2, p3]) s0 = Outcome.returned () sa
        ∧ motor_thread_loop sa = Outcome.returned (paired_observation s0 u p1) s4
        ∧ motor_thread_loop s4 = Outcome.returned (paired_observation s0 u p2) s5
        ∧ motor_thread_loop s5 = Outcome.blocked s5 := by
  obtain ⟨mc, gr, q, l, t⟩ := s0
  simp only at hq
  subst hq
  have hA : deliver u (cycles [p1, p2] ++ [{ self := ADC_Handle.hadc2, JDR1 := p3.1 }])
        { motor_configs := mc, gate_driver_regs := gr, M0_Iph_queue := osMailCreate 2,
          phB_current := l, htim1 := t }
      = Outcome.returned ()
          { motor_configs := mc, gate_driver_regs := gr
            M0_Iph_queue :=
              { queue_sz := 2, allocated := 2
                queue := [paired_observation ⟨mc, gr, osMailCreate 2, l, t⟩ u p1,
                          paired_observation ⟨mc, gr, osMailCreate 2, l, t⟩ u p2] }
            phB_current := phase_current_from_adcval ⟨mc, gr, osMailCreate 2, l, t⟩ u p3.1 0
            htim1 := t } := by
    rw [deliver_append, deliver_cycles]
    simp only [Outcome.bind, deliver, HAL_ADCEx_InjectedConvCpltCallback, cb_hadc2,
      List.foldl_cons, List.foldl_nil, emit_pair, osMailCreate]
    simp only [paired_observation, phase_current_from_adcval]
    norm_num
  have hB : deliver u (cycles [p1, p2, p3])
        { motor_configs := mc, gate_driver_regs := gr, M0_Iph_queue := osMailCreate 2,
          phB_current := l, htim1 := t }
      = Outcome.returned ()
          { motor_configs := mc, gate_driver_regs := gr
            M0_Iph_queue :=
              { queue_sz := 2, allocated := 2
                queue := [paired_observation ⟨mc, gr, osMailCreate 2, l, t⟩ u p1,
                          paired_observation ⟨mc, gr, osMailCreate 2, l, t⟩ u p2] }
            phB_current := phase_current_from_adcval ⟨mc, gr, osMailCreate 2, l, t⟩ u p3.1 0
            htim1 := t } := by
    rw [deliver_cycles]
    simp only [List.foldl_cons, List.foldl_nil, emit_pair, osMailCreate]
    simp only [paired_observation, phase_current_from_adcval]
    norm_num
  refine ⟨_, _, _, hA, rfl, ?_, hB, motor_thread_loop_cons _ _ _ rfl,
    motor_thread_loop_cons _ _ _ rfl, motor_thread_loop_nil _ rfl⟩
  rw [cb_hadc3]
  simp

theorem motor_thread_loop_compare (s : State) (mail : Iph_BC_queue_item_t)
    (rest : List Iph_BC_queue_item_t) (hq : s.M0_Iph_queue.queue = mail :: rest)
    (hARR : s.htim1.ARR < 2 ^ 32) :
    ∃ s', motor_thread_loop s = Outcome.returned mail s'
      ∧ s'.htim1.ARR = s.htim1.ARR
      ∧ s'.htim1.CCR1 = uint32_of_int (((s.htim1.ARR / 2 : Nat) : Int) - 400)
      ∧ s'.htim1.CCR2 = s.htim1.ARR / 2 + 400
      ∧ s'.htim1.CCR3 = s.htim1.ARR / 2 + 400
      ∧ (800 ≤ s.htim1.ARR → s'.htim1.CCR1 = s.htim1.ARR / 2 - 400)
      ∧ ((s'.htim1.CCR1 ≤ s'.htim1.ARR ∧ s'.htim1.CCR2 ≤ s'.htim1.ARR
            ∧ s'.htim1.CCR3 ≤ s'.htim1.ARR) ↔ 800 ≤ s.htim1.ARR) := by
  refine ⟨_, motor_thread_loop_cons s mail rest hq, rfl, ?_, ?_, ?_, ?_, ?_⟩
  all_goals simp only [half_load_eq _ hARR, uint32_of_int]
  all_goals omega

/-! ## Rounding to binary32 -/

namespace binary32

theorem bit_length_zero (fuel : Nat) : bit_length fuel 0 = 0 := by
  cases fuel <;> simp [bit_length]

theorem bit_length_spec (fuel : Nat) : ∀ n : Nat, n < 2 ^ fuel → 0 < n →
    2 ^ bit_length fuel n ≤ 2 * n ∧ n < 2 ^ bit_length fuel n := by
  induction fuel with
  | zero => intro n h1 h2; simp at h1; omega
  | succ fuel ih =>
    intro n h1 h2
    have hn : n ≠ 0 := by omega
    simp only [bit_length, hn, if_false]
    by_cases h : n / 2 = 0
    · have : n = 1 := by omega
      subst this
      simp [bit_length_zero]
    · have h3 : n / 2 < 2 ^ fuel := by
        rw [pow_succ] at h1
        omega
      obtain ⟨a, b⟩ := ih (n / 2) h3 (by omega)
      rw [pow_succ]
      constructor <;> omega

theorem bit_length_self (n : Nat) (h : 0 < n) :
    2 ^ bit_length n n ≤ 2 * n ∧ n < 2 ^ bit_length n n :=
  bit_length_spec n n (Nat.lt_two_pow n) h

theorem floor_log2_spec (n d : Nat) (hn : 0 < n) (hd : 0 < d) :
    (2 : ℚ) ^ floor_log2 n d ≤ (n : ℚ) / d ∧ (n : ℚ) / d < (2 : ℚ) ^ (floor_log2 n d + 1) := by
  obtain ⟨n1, n2⟩ := bit_length_self n hn
  obtain ⟨d1, d2⟩ := bit_length_self d hd
  have hdq : (0 : ℚ) < d := by exact_mod_cast hd
  have hnq : (0 : ℚ) < n := by exact_mod_cast hn
  have n1q : (2 : ℚ) ^ bit_length n n ≤ 2 * n := by exact_mod_cast n1
  have n2q : (n : ℚ) < 2 ^ bit_length n n := by exact_mod_cast n2
  have d1q : (2 : ℚ) ^ bit_length d d ≤ 2 * d := by exact_mod_cast d1
  have d2q : (d : ℚ) < 2 ^ bit_length d d := by exact_mod_cast d2
  have hbn : (0 : ℚ) < 2 ^ bit_length n n := by positivity
  have hbd : (0 : ℚ) < 2 ^ bit_length d d := by positivity
  have he0 : (2 : ℚ) ^ ((bit_length n n : Int) - (bit_length d d : Int))
      = 2 ^ bit_length n n / 2 ^ bit_length d d := by
    rw [zpow_sub₀ (by norm_num), zpow_natCast, zpow_natCast]
  -- the test computes `2 ^ e0 ≤ n / d`
  have htest : ((if 0 ≤ ((bit_length n n : Int) - (bit_length d d : Int))
        then decide (d * 2 ^ ((bit_length n n : Int) - (bit_length d d : Int)).toNat ≤ n)
        else decide (d ≤ n * 2 ^ (-((bit_length n n : Int) - (bit_length d d : Int))).toNat)) = true)
      ↔ (2 : ℚ) ^ ((bit_length n n : Int) - (bit_length d d : Int)) ≤ (n : ℚ) / d := by
    rw [le_div_iff₀ hdq]
    by_cases h0 : 0 ≤ ((bit_length n n : Int) - (bit_length d d : Int))
    · simp only [h0, if_true, decide_eq_true_eq]
      obtain ⟨a, ha⟩ := Int.eq_ofNat_of_zero_le h0
      rw [ha, Int.toNat_ofNat, zpow_natCast]
      constructor
      · intro h
        have : ((d * 2 ^ a : Nat) : ℚ) ≤ n := by exact_mod_cast h
        push_cast at this
        linarith
      · intro h
        have : ((d * 2 ^ a : Nat) : ℚ) ≤ n := by push_cast; linarith
        exact_mod_cast this
    · simp only [h0, if_false, decide_eq_true_eq]
      obtain ⟨a, ha⟩ := Int.eq_ofNat_of_zero_le (show 0 ≤ -((bit_length n n : Int) - (bit_length d d : Int)) by omega)
      have ha2 : ((bit_length n n : Int) - (bit_length d d : Int)) = -(a : Int) := by omega
      rw [ha, Int.toNat_ofNat, ha2, zpow_neg, zpow_natCast]
      have hpa : (0 : ℚ) < 2 ^ a := by positivity
      constructor
      · intro h
        have : (d : ℚ) ≤ ((n * 2 ^ a : Nat) : ℚ) := by exact_mod_cast h
        push_cast at this
        rw [inv_mul_le_iff₀ hpa]
        linarith
      · intro h
        rw [inv_mul_le_iff₀ hpa] at h
        have : (d : ℚ) ≤ ((n * 2 ^ a : Nat) : ℚ) := by push_cast; linarith
        exact_mod_cast this
  have key : ∀ t : Bool,
      (t = true ↔ (2 : ℚ) ^ ((bit_length n n : Int) - (bit_length d d : Int)) ≤ (n : ℚ) / d) →
      (2 : ℚ) ^ (if t = true then (bit_length n n : Int) - (bit_length d d : Int)
          else (bit_length n n : Int) - (bit_length d d : Int) - 1) ≤ (n : ℚ) / d
        ∧ (n : ℚ) / d < (2 : ℚ) ^ ((if t = true then (bit_length n n : Int) - (bit_length d d : Int)
          else (bit_length n n : Int) - (bit_length d d : Int) - 1) + 1) := by
    intro t ht
    cases t
    · have hr2 : ¬ (2 : ℚ) ^ ((bit_length n n : Int) - (bit_length d d : Int)) ≤ (n : ℚ) / d :=
        fun h => by simpa using ht.mpr h
      push_neg at hr2
      simp only [Bool.false_eq_true, if_false, sub_add_cancel]
      refine ⟨?_, hr2⟩
      rw [zpow_sub₀ (by norm_num), he0, zpow_one, le_div_iff₀ hdq]
      have : (2 : ℚ) ^ bit_length n n * d ≤ (2 * n) * 2 ^ bit_length d d := by nlinarith
      rw [div_div, div_mul_eq_mul_div, div_le_iff₀ (by positivity)]
      linarith
    · have hr2 := ht.mp rfl
      simp only [if_true]
      refine ⟨hr2, ?_⟩
      rw [zpow_add₀ (by norm_num), he0, zpow_one, div_lt_iff₀ hdq]
      have : (n : ℚ) * 2 ^ bit_length d d < 2 ^ bit_length n n * (2 * d) := by nlinarith
      rw [div_mul_eq_mul_div, div_mul_eq_mul_div, lt_div_iff₀ hbd]
      linarith
  exact key _ htest




theorem nearest_even_spec (num den : Nat) (hden : 0 < den) :
    |(nearest_even num den : ℚ) - (num : ℚ) / den| ≤ 1 / 2 := by
  have hdq : (0 : ℚ) < den := by exact_mod_cast hden
  have hmod : num % den < den := Nat.mod_lt _ hden
  have hdiv : den * (num / den) + num % den = num := Nat.div_add_mod num den
  have hdivq : (den : ℚ) * ((num / den : Nat) : ℚ) + ((num % den : Nat) : ℚ) = num := by
    exact_mod_cast hdiv
  have hr0 : (0 : ℚ) ≤ ((num % den : Nat) : ℚ) := by positivity
  have hr1 : ((num % den : Nat) : ℚ) < den := by exact_mod_cast hmod
  have e : ∀ k : ℚ, k - (num : ℚ) / den = (k * den - num) / den := by
    intro k; field_simp
  rw [e, abs_le, le_div_iff₀ hdq, div_le_iff₀ hdq]
  unfold nearest_even
  simp only
  split
  · rename_i h
    have : 2 * ((num % den : Nat) : ℚ) < den := by exact_mod_cast h
    constructor <;> nlinarith
  · split
    · rename_i h1 h
      have : (den : ℚ) < 2 * ((num % den : Nat) : ℚ) := by exact_mod_cast h
      push_cast
      constructor <;> nlinarith
    · rename_i h1 h2
      have h3 : 2 * (num % den) = den := by omega
      have : 2 * ((num % den : Nat) : ℚ) = den := by exact_mod_cast h3
      split
      · constructor <;> nlinarith
      · push_cast
        constructor <;> nlinarith

theorem round_to_nearest_spec (x : ℚ) (h1 : (2 : ℚ) ^ (-126 : ℤ) ≤ |x|)
    (h2 : |x| < (2 : ℚ) ^ (127 : ℤ)) :
    ∃ v, round_to_nearest x = float.finite v ∧ |v - x| ≤ |x| / 2 ^ 24 := by
  have hpos : 0 < |x| := lt_of_lt_of_le (by positivity) h1
  have hx0 : x ≠ 0 := abs_pos.mp hpos
  have hd : 0 < x.den := x.den_pos
  have hn : 0 < x.num.natAbs := Int.natAbs_pos.mpr (Rat.num_ne_zero.mpr hx0)
  have hdq : (0 : ℚ) < x.den := by exact_mod_cast hd
  have habs : ((x.num.natAbs : Nat) : ℚ) / x.den = |x| := by
    rw [Nat.cast_natAbs, Int.cast_abs]
    conv_rhs => rw [← Rat.num_div_den x]
    rw [abs_div, abs_of_pos hdq]
  obtain ⟨e1, e2⟩ := floor_log2_spec x.num.natAbs x.den hn hd
  rw [habs] at e1 e2
  have hlo : -126 ≤ floor_log2 x.num.natAbs x.den := by
    by_contra hcon
    have : floor_log2 x.num.natAbs x.den + 1 ≤ -126 := by omega
    have : (2 : ℚ) ^ (floor_log2 x.num.natAbs x.den + 1) ≤ 2 ^ (-126 : ℤ) :=
      zpow_le_zpow_right₀ (by norm_num) this
    linarith
  have hhi : floor_log2 x.num.natAbs x.den ≤ 126 := by
    by_contra hcon
    have : (127 : ℤ) ≤ floor_log2 x.num.natAbs x.den := by omega
    have : (2 : ℚ) ^ (127 : ℤ) ≤ 2 ^ floor_log2 x.num.natAbs x.den :=
      zpow_le_zpow_right₀ (by norm_num) this
    linarith
  have hq : max (floor_log2 x.num.natAbs x.den - 23) (-149) = floor_log2 x.num.natAbs x.den - 23 :=
    max_eq_left (by omega)
  -- the unit in the last place
  have hP : (0 : ℚ) < 2 ^ (floor_log2 x.num.natAbs x.den - 23) := by positivity
  have hP23 : (2 : ℚ) ^ (floor_log2 x.num.natAbs x.den - 23) * 2 ^ 23
      = 2 ^ floor_log2 x.num.natAbs x.den := by
    rw [zpow_sub₀ (by norm_num)]
    norm_num
  have hP24 : (2 : ℚ) ^ (floor_log2 x.num.natAbs x.den - 23) * 2 ^ 24
      = 2 ^ (floor_log2 x.num.natAbs x.den + 1) := by
    rw [zpow_sub₀ (by norm_num), zpow_add₀ (by norm_num)]
    norm_num
    ring
  have hP103 : (2 : ℚ) ^ (floor_log2 x.num.natAbs x.den - 23) ≤ 2 ^ (103 : ℤ) :=
    zpow_le_zpow_right₀ (by norm_num) (by omega)
  have hsgn : (if x < 0 then (-1 : ℚ) else 1) * |x| = x := by
    split
    · rename_i h; rw [abs_of_neg h]; ring
    · rename_i h; rw [abs_of_nonneg (not_lt.mp h)]; ring
  have hsgn1 : |(if x < 0 then (-1 : ℚ) else 1)| = 1 := by
    split <;> simp
  unfold round_to_nearest
  simp only [hx0, if_false, hq]
  generalize hqdef : floor_log2 x.num.natAbs x.den - 23 = q at hP hP23 hP24 hP103
  generalize hPdef : (2 : ℚ) ^ q = P at hP hP23 hP24 hP103
  -- the significand and the final value, for either sign of `q`
  have main : ∀ (num den qn qm : Nat), 0 < den →
      (num : ℚ) / den = |x| / P → ((2 ^ qn : Nat) : ℚ) / ((2 ^ qm : Nat) : ℚ) = P →
      ∃ v, (if 2 ^ 128 * 2 ^ qm ≤ nearest_even num den * 2 ^ qn
              then float.infinity (decide (x < 0))
            else float.finite ((if x < 0 then -1 else 1)
              * ((nearest_even num den * 2 ^ qn : Nat) : ℚ) / ((2 ^ qm : Nat) : ℚ)))
            = float.finite v
          ∧ |v - x| ≤ |x| / 2 ^ 24 := by
    intro num den qn qm hden hy hPq
    have hk := nearest_even_spec num den hden
    rw [hy, abs_le] at hk
    obtain ⟨hk1, hk2⟩ := hk
    have hqm : (0 : ℚ) < ((2 ^ qm : Nat) : ℚ) := by positivity
    have hkP : (nearest_even num den : ℚ) * P ≤ |x| + P / 2 := by
      have : (nearest_even num den : ℚ) ≤ |x| / P + 1 / 2 := by linarith
      calc (nearest_even num den : ℚ) * P ≤ (|x| / P + 1 / 2) * P :=
            mul_le_mul_of_nonneg_right this hP.le
        _ = |x| + P / 2 := by field_simp; ring
    have hkP2 : |x| - P / 2 ≤ (nearest_even num den : ℚ) * P := by
      have : |x| / P - 1 / 2 ≤ (nearest_even num den : ℚ) := by linarith
      calc |x| - P / 2 = (|x| / P - 1 / 2) * P := by field_simp; ring
        _ ≤ (nearest_even num den : ℚ) * P := mul_le_mul_of_nonneg_right this hP.le
    have hval : ((nearest_even num den * 2 ^ qn : Nat) : ℚ) / ((2 ^ qm : Nat) : ℚ)
        = (nearest_even num den : ℚ) * P := by
      rw [← hPq]
      push_cast
      ring
    have hno : ¬ (2 ^ 128 * 2 ^ qm ≤ nearest_even num den * 2 ^ qn) := by
      intro hcon
      have hc : ((2 ^ 128 * 2 ^ qm : Nat) : ℚ) ≤ ((nearest_even num den * 2 ^ qn : Nat) : ℚ) := by
        exact_mod_cast hcon
      have hc2 : (2 : ℚ) ^ 128 ≤ ((nearest_even num den * 2 ^ qn : Nat) : ℚ) / ((2 ^ qm : Nat) : ℚ) := by
        rw [le_div_iff₀ hqm]
        push_cast at hc ⊢
        linarith
      rw [hval] at hc2
      have h127 : (2 : ℚ) ^ (127 : ℤ) = 2 ^ 127 := by norm_num
      have h103 : (2 : ℚ) ^ (103 : ℤ) = 2 ^ 103 := by norm_num
      rw [h127] at h2
      rw [h103] at hP103
      norm_num at hc2 h2 hP103
      linarith
    refine ⟨_, if_neg hno, ?_⟩
    rw [mul_div_assoc, hval]
    have : (if x < 0 then (-1 : ℚ) else 1) * ((nearest_even num den : ℚ) * P) - x
        = (if x < 0 then (-1 : ℚ) else 1) * ((nearest_even num den : ℚ) * P - |x|) := by
      linear_combination hsgn
    rw [this, abs_mul, hsgn1, one_mul, abs_le]
    have hx23 : P * 2 ^ 23 ≤ |x| := by rw [hP23]; exact e1
    constructor
    · have : P / 2 ≤ |x| / 2 ^ 24 := by
        rw [le_div_iff₀ (by positivity)]
        nlinarith
      linarith
    · have : P / 2 ≤ |x| / 2 ^ 24 := by
        rw [le_div_iff₀ (by positivity)]
        nlinarith
      linarith
  by_cases h0 : 0 ≤ q
  · obtain ⟨a, ha⟩ := Int.eq_ofNat_of_zero_le h0
    subst ha
    have hneg : (-(a : Int)).toNat = 0 := by omega
    simp only [h0, if_true, Int.toNat_ofNat, hneg]
    apply main
    · positivity
    · rw [← hPdef, zpow_natCast, ← habs]
      push_cast
      field_simp
    · rw [← hPdef, zpow_natCast]
      push_cast
      simp
  · have hq0 : q < 0 := by omega
    obtain ⟨a, ha⟩ := Int.eq_ofNat_of_zero_le (show 0 ≤ -q by omega)
    have hqa : q = -(a : Int) := by omega
    subst hqa
    have hneg : (-(a : Int)).toNat = 0 := by omega
    simp only [h0, if_false, neg_neg, Int.toNat_ofNat, hneg]
    apply main
    · exact hd
    · rw [← hPdef, zpow_neg, zpow_natCast, ← habs]
      push_cast
      field_simp
    · rw [← hPdef, zpow_neg, zpow_natCast]
      push_cast
      simp

theorem amp_gain_value :
    div (literal (33 / 10)) (of_int (2 ^ 12)) = float.finite (13841203 / 17179869184) := by
  decide!

theorem rev_gain_10 : div (literal 1) (literal 10) = float.finite (13421773 / 134217728) := by
  decide!
theorem rev_gain_20 : div (literal 1) (literal 20) = float.finite (13421773 / 268435456) := by
  decide!
theorem rev_gain_40 : div (literal 1) (literal 40) = float.finite (13421773 / 536870912) := by
  decide!
theorem rev_gain_80 : div (literal 1) (literal 80) = float.finite (13421773 / 1073741824) := by
  decide!

theorem shunt_conductance_value :
    (motor_configs 0).shunt_conductance = float.finite (16383999 / 8192) := by
  decide!

theorem decode_2148 :
    phase_current_from_adcval (fun _ => { Ctrl_Reg_2 := { GAIN := DRV8301_ShuntAmpGain_40VpV } })
      motor_configs 2148 0 = some (float.finite (8447999 / 2097152)) := by
  decide!

theorem round_to_nearest_zero : round_to_nearest 0 = float.finite 0 := by
  simp [round_to_nearest]

theorem round_approx (x y η : ℚ) (hη0 : 0 ≤ η) (hη1 : η ≤ 1 / 2)
    (hxy : |x - y| ≤ |y| * η) (hlo : (2 : ℚ) ^ (-125 : ℤ) ≤ |y|) (hhi : |y| ≤ (2 : ℚ) ^ (126 : ℤ)) :
    ∃ v, round_to_nearest x = float.finite v ∧ |v - y| ≤ |y| * (η + (1 + η) / 2 ^ 24) := by
  have hy0 : 0 ≤ |y| := abs_nonneg y
  have hx1 : |y| - |y| * η ≤ |x| := by
    have := abs_sub_abs_le_abs_sub y x
    rw [abs_sub_comm] at this
    linarith
  have hx2 : |x| ≤ |y| + |y| * η := by
    have := abs_sub_abs_le_abs_sub x y
    linarith
  have h125 : (2 : ℚ) ^ (-125 : ℤ) = 2 * 2 ^ (-126 : ℤ) := by
    rw [show (-125 : ℤ) = 1 + (-126) from rfl, zpow_add₀ (by norm_num), zpow_one]
  have h127 : (2 : ℚ) ^ (127 : ℤ) = 2 * 2 ^ (126 : ℤ) := by
    rw [show (127 : ℤ) = 1 + 126 from rfl, zpow_add₀ (by norm_num), zpow_one]
  have hp : (0 : ℚ) < 2 ^ (-126 : ℤ) := by positivity
  have hp2 : (0 : ℚ) < 2 ^ (126 : ℤ) := by positivity
  obtain ⟨v, hv, he⟩ := round_to_nearest_spec x
    (by rw [h125] at hlo; nlinarith) (by rw [h127]; nlinarith)
  refine ⟨v, hv, ?_⟩
  have h3 : |v - y| ≤ |v - x| + |x - y| := abs_sub_le v x y
  have h4 : |x| / 2 ^ 24 ≤ (|y| + |y| * η) / 2 ^ 24 :=
    div_le_div_of_nonneg_right hx2 (by positivity)
  have h5 : |y| * (η + (1 + η) / 2 ^ 24) = |y| * η + (|y| + |y| * η) / 2 ^ 24 := by ring
  rw [h5]
  linarith

theorem mul_finite (a b : ℚ) : mul (float.finite a) (float.finite b) = round_to_nearest (a * b) :=
  rfl

theorem mul_approx (a c y η : ℚ) (hη0 : 0 ≤ η) (hη1 : η ≤ 1 / 2)
    (hay : |a - y| ≤ |y| * η) (hlo : (2 : ℚ) ^ (-125 : ℤ) ≤ |y * c|)
    (hhi : |y * c| ≤ (2 : ℚ) ^ (126 : ℤ)) :
    ∃ v, mul (float.finite a) (float.finite c) = float.finite v
      ∧ |v - y * c| ≤ |y * c| * (η + (1 + η) / 2 ^ 24) := by
  rw [mul_finite]
  apply round_approx (a * c) (y * c) η hη0 hη1 _ hlo hhi
  rw [← sub_mul, abs_mul, abs_mul]
  nlinarith [abs_nonneg c]

theorem mul_comm_finite (a b : ℚ) :
    mul (float.finite a) (float.finite b) = mul (float.finite b) (float.finite a) := by
  rw [mul_finite, mul_finite, mul_comm]

theorem abs_mul_bounds (y c lo hi clo chi : ℚ) (hlo0 : 0 ≤ lo) (hclo0 : 0 ≤ clo)
    (hlo : lo ≤ |y|) (hhi : |y| ≤ hi) (hclo : clo ≤ |c|) (hchi : |c| ≤ chi) :
    lo * clo ≤ |y * c| ∧ |y * c| ≤ hi * chi := by
  rw [abs_mul]
  exact ⟨mul_le_mul hlo hclo hclo0 (le_trans hlo0 hlo),
    mul_le_mul hhi hchi (abs_nonneg c) (le_trans (abs_nonneg y) hhi)⟩

theorem decode_chain (ρ g S : ℚ) (b : ℤ) (hb1 : -2048 ≤ b) (hb2 : b ≤ 2047)
    (hg : 0 < g) (hρ1 : 1 / 128 ≤ ρ) (hρ2 : ρ ≤ 1 / 8)
    (hγ : |13841203 / 17179869184 * ρ - 33 / 10 / 4096 * (1 / g)|
      ≤ 33 / 10 / 4096 * (1 / g) * (1 / 1000000000))
    (hS1 : 1 / 2 ^ 64 ≤ |S|) (hS2 : |S| ≤ 2 ^ 64) :
    ∃ v, mul (mul (mul (float.finite (13841203 / 17179869184)) (of_int b)) (float.finite ρ))
          (float.finite S) = float.finite v
      ∧ |v - (b : ℚ) * (33 / 10 / 4096) * (1 / g) * S|
          ≤ |(b : ℚ) * (33 / 10 / 4096) * (1 / g) * S| / 4000000 := by
  by_cases hb0 : b = 0
  · subst hb0
    refine ⟨0, ?_, by simp⟩
    simp [of_int, mul_finite, round_to_nearest_zero]
  · have hA1 : (1 : ℚ) ≤ |(b : ℚ)| := by
      have : (1 : ℤ) ≤ |b| := Int.one_le_abs hb0
      exact_mod_cast this
    have hA2 : |(b : ℚ)| ≤ 2048 := by
      have : |b| ≤ 2048 := abs_le.mpr ⟨by omega, by omega⟩
      exact_mod_cast this
    have hρabs : |ρ| = ρ := abs_of_pos (by linarith)
    have hcabs : |(13841203 / 17179869184 : ℚ)| = 13841203 / 17179869184 :=
      abs_of_pos (by norm_num)
    have p125 : (2 : ℚ) ^ (-125 : ℤ) ≤ 1 / 2 ^ 100 := by
      rw [zpow_neg, ← one_div]
      apply one_div_le_one_div_of_le (by positivity)
      norm_num
    have p126 : (2 : ℚ) ^ (100 : ℕ) ≤ 2 ^ (126 : ℤ) := by norm_num
    -- conversion of the balanced sample
    obtain ⟨v0, hv0, e0⟩ := round_approx (b : ℚ) (b : ℚ) 0 le_rfl (by norm_num) (by simp)
      (le_trans p125 (le_trans (by norm_num) hA1)) (le_trans hA2 (le_trans (by norm_num) p126))
    -- amplifier output voltage
    obtain ⟨bl1, bh1⟩ := abs_mul_bounds (b : ℚ) (13841203 / 17179869184) 1 2048
      (13841203 / 17179869184) (13841203 / 17179869184) (by norm_num) (by norm_num)
      hA1 hA2 hcabs.ge hcabs.le
    obtain ⟨v1, hv1, e1⟩ := mul_approx v0 (13841203 / 17179869184) (b : ℚ) _
      (by norm_num) (by norm_num) e0
      (le_trans p125 (le_trans (by norm_num) bl1)) (le_trans bh1 (le_trans (by norm_num) p126))
    -- shunt voltage
    obtain ⟨bl2, bh2⟩ := abs_mul_bounds ((b : ℚ) * (13841203 / 17179869184)) ρ _ _ (1 / 128) (1 / 8)
      (by norm_num) (by norm_num) bl1 bh1 (by rw [hρabs]; exact hρ1) (by rw [hρabs]; exact hρ2)
    obtain ⟨v2, hv2, e2⟩ := mul_approx v1 ρ ((b : ℚ) * (13841203 / 17179869184)) _
      (by norm_num) (by norm_num) e1
      (le_trans p125 (le_trans (by norm_num) bl2)) (le_trans bh2 (le_trans (by norm_num) p126))
    -- current
    obtain ⟨bl3, bh3⟩ := abs_mul_bounds ((b : ℚ) * (13841203 / 17179869184) * ρ) S _ _
      (1 / 2 ^ 64) (2 ^ 64) (by norm_num) (by norm_num) bl2 bh2 hS1 hS2
    obtain ⟨v3, hv3, e3⟩ := mul_approx v2 S ((b : ℚ) * (13841203 / 17179869184) * ρ) _
      (by norm_num) (by norm_num) e2
      (le_trans p125 (le_trans (by norm_num) bl3)) (le_trans bh3 (le_trans (by norm_num) p126))
    refine ⟨v3, ?_, ?_⟩
    · rw [of_int, hv0, mul_comm_finite, hv1, hv2, hv3]
    · -- the constants against the exact scale
      have hE : |(b : ℚ) * (13841203 / 17179869184) * ρ * S
            - (b : ℚ) * (33 / 10 / 4096) * (1 / g) * S|
          ≤ |(b : ℚ) * (33 / 10 / 4096) * (1 / g) * S| * (1 / 1000000000) := by
        have hK : (0 : ℚ) < 33 / 10 / 4096 * (1 / g) := by positivity
        have e : (b : ℚ) * (13841203 / 17179869184) * ρ * S
            - (b : ℚ) * (33 / 10 / 4096) * (1 / g) * S
            = (b : ℚ) * S * (13841203 / 17179869184 * ρ - 33 / 10 / 4096 * (1 / g)) := by ring
        have e' : (b : ℚ) * (33 / 10 / 4096) * (1 / g) * S
            = (b : ℚ) * S * (33 / 10 / 4096 * (1 / g)) := by ring
        rw [e, e', abs_mul, abs_mul ((b : ℚ) * S), abs_of_pos hK, mul_assoc]
        exact mul_le_mul_of_nonneg_left hγ (abs_nonneg _)
      have hy : |(b : ℚ) * (13841203 / 17179869184) * ρ * S|
          ≤ |(b : ℚ) * (33 / 10 / 4096) * (1 / g) * S| * (1 + 1 / 1000000000) := by
        have := abs_sub_abs_le_abs_sub ((b : ℚ) * (13841203 / 17179869184) * ρ * S)
          ((b : ℚ) * (33 / 10 / 4096) * (1 / g) * S)
        linarith
      have h3 := abs_sub_le v3 ((b : ℚ) * (13841203 / 17179869184) * ρ * S)
        ((b : ℚ) * (33 / 10 / 4096) * (1 / g) * S)
      have hE0 : 0 ≤ |(b : ℚ) * (33 / 10 / 4096) * (1 / g) * S| := abs_nonneg _
      have e3' : |v3 - (b : ℚ) * (13841203 / 17179869184) * ρ * S|
          ≤ |(b : ℚ) * (33 / 10 / 4096) * (1 / g) * S| * (1 + 1 / 1000000000)
            * (0 + (1 + 0) / 2 ^ 24 + (1 + (0 + (1 + 0) / 2 ^ 24)) / 2 ^ 24
              + (1 + (0 + (1 + 0) / 2 ^ 24 + (1 + (0 + (1 + 0) / 2 ^ 24)) / 2 ^ 24)) / 2 ^ 24
              + (1 + (0 + (1 + 0) / 2 ^ 24 + (1 + (0 + (1 + 0) / 2 ^ 24)) / 2 ^ 24
                + (1 + (0 + (1 + 0) / 2 ^ 24 + (1 + (0 + (1 + 0) / 2 ^ 24)) / 2 ^ 24)) / 2 ^ 24))
                / 2 ^ 24) :=
        le_trans e3 (mul_le_mul_of_nonneg_right hy (by norm_num))
      have hfin : |(b : ℚ) * (33 / 10 / 4096) * (1 / g) * S| * (1 + 1 / 1000000000)
            * (0 + (1 + 0) / 2 ^ 24 + (1 + (0 + (1 + 0) / 2 ^ 24)) / 2 ^ 24
              + (1 + (0 + (1 + 0) / 2 ^ 24 + (1 + (0 + (1 + 0) / 2 ^ 24)) / 2 ^ 24)) / 2 ^ 24
              + (1 + (0 + (1 + 0) / 2 ^ 24 + (1 + (0 + (1 + 0) / 2 ^ 24)) / 2 ^ 24
                + (1 + (0 + (1 + 0) / 2 ^ 24 + (1 + (0 + (1 + 0) / 2 ^ 24)) / 2 ^ 24)) / 2 ^ 24))
                / 2 ^ 24)
          + |(b : ℚ) * (33 / 10 / 4096) * (1 / g) * S| * (1 / 1000000000)
          ≤ |(b : ℚ) * (33 / 10 / 4096) * (1 / g) * S| / 4000000 := by
        generalize |(b : ℚ) * (33 / 10 / 4096) * (1 / g) * S| = E at hE0 ⊢
        norm_num
        linarith
      linarith

theorem phase_current_near (gate_driver_regs : Fin 1 → DRV_SPI_8301_Vars_t)
    (motors : Fin num_motors → Motor_t) (r : Nat) (m : Fin num_motors) (g S : ℚ)
    (hr : r < 4096) (hg : gain_VpV (gate_driver_regs m).Ctrl_Reg_2.GAIN = some g)
    (hS : (motors m).shunt_conductance = float.finite S)
    (hS1 : 1 / 2 ^ 64 ≤ |S|) (hS2 : |S| ≤ 2 ^ 64) :
    ∃ v, phase_current_from_adcval gate_driver_regs motors r m = some (float.finite v)
      ∧ |v - ((r : ℚ) - 2048) * (33 / 10 / 4096) * (1 / g) * S|
          ≤ |((r : ℚ) - 2048) * (33 / 10 / 4096) * (1 / g) * S| / 4000000 := by
  have hb : ((((r : Int) - 2048 : Int)) : ℚ) = (r : ℚ) - 2048 := by push_cast; ring
  unfold phase_current_from_adcval
  simp only [adcval_bal_of_lt r hr, amp_gain_value, hS]
  cases hG : (gate_driver_regs m).Ctrl_Reg_2.GAIN <;> rw [hG] at hg <;>
    simp only [gain_VpV, Option.some.injEq] at hg
  · subst hg
    simp only [rev_gain_10]
    obtain ⟨v, h1, h2⟩ := decode_chain (13421773 / 134217728) 10 S ((r : Int) - 2048)
      (by omega) (by omega) (by norm_num) (by norm_num) (by norm_num)
      (by rw [abs_le]; constructor <;> norm_num) hS1 hS2
    rw [hb] at h2
    exact ⟨v, by rw [h1], h2⟩
  · subst hg
    simp only [rev_gain_20]
    obtain ⟨v, h1, h2⟩ := decode_chain (13421773 / 268435456) 20 S ((r : Int) - 2048)
      (by omega) (by omega) (by norm_num) (by norm_num) (by norm_num)
      (by rw [abs_le]; constructor <;> norm_num) hS1 hS2
    rw [hb] at h2
    exact ⟨v, by rw [h1], h2⟩
  · subst hg
    simp only [rev_gain_40]
    obtain ⟨v, h1, h2⟩ := decode_chain (13421773 / 536870912) 40 S ((r : Int) - 2048)
      (by omega) (by omega) (by norm_num) (by norm_num) (by norm_num)
      (by rw [abs_le]; constructor <;> norm_num) hS1 hS2
    rw [hb] at h2
    exact ⟨v, by rw [h1], h2⟩
  · subst hg
    simp only [rev_gain_80]
    obtain ⟨v, h1, h2⟩ := decode_chain (13421773 / 1073741824) 80 S ((r : Int) - 2048)
      (by omega) (by omega) (by norm_num) (by norm_num) (by norm_num)
      (by rw [abs_le]; constructor <;> norm_num) hS1 hS2
    rw [hb] at h2
    exact ⟨v, by rw [h1], h2⟩
  · exact absurd hg (by simp)

theorem round_to_nearest_neg (x : ℚ) : round_to_nearest (-x) = neg (round_to_nearest x) := by
  by_cases hx : x = 0
  · subst hx
    simp [round_to_nearest, neg]
  · have hnx : -x ≠ 0 := neg_ne_zero.mpr hx
    have hlt : (-x < 0) ↔ ¬ (x < 0) := by
      constructor
      · intro h; linarith
      · intro h
        rcases lt_trichotomy x 0 with h1 | h1 | h1
        · exact absurd h1 h
        · exact absurd h1 hx
        · linarith
    unfold round_to_nearest
    simp only [hx, hnx, if_false, Rat.neg_num, Int.natAbs_neg, Rat.neg_den]
    by_cases h : x < 0
    · have h' : ¬ (-x < 0) := fun hc => (hlt.mp hc) h
      simp only [h, h', if_true, if_false, decide_True, decide_False]
      split_ifs <;> simp [neg] <;> ring
    · have h' : -x < 0 := hlt.mpr h
      simp only [h, h', if_true, if_false, decide_True, decide_False]
      split_ifs <;> simp [neg] <;> ring

theorem pos_decide (b : ℚ) (hb : b ≠ 0) : decide (0 < b) = !decide (b < 0) := by
  rcases lt_trichotomy b 0 with h | h | h
  · have : ¬ (0 < b) := by linarith
    simp [h, this]
  · exact absurd h hb
  · have h2 : ¬ (b < 0) := by linarith
    simp [h, h2]

theorem mul_neg_right (a b : float) : mul a (neg b) = neg (mul a b) := by
  cases a <;> cases b
  · simp only [neg, mul_finite, mul_neg, round_to_nearest_neg]
  · rename_i a s
    by_cases h : a = 0 <;> simp [neg, mul, h]
  · simp [neg, mul]
  · rename_i s b
    by_cases h : b = 0
    · simp [neg, mul, h]
    · simp only [neg, mul, h, neg_eq_zero, if_false, Left.neg_neg_iff, pos_decide b h]
      cases s <;> cases decide (b < 0) <;> rfl
  · simp [neg, mul]
  · simp [neg, mul]
  · simp [neg, mul]
  · simp [neg, mul]
  · simp [neg, mul]

theorem mul_neg_left (a b : float) : mul (neg a) b = neg (mul a b) := by
  cases a <;> cases b
  · simp only [neg, mul_finite, neg_mul, round_to_nearest_neg]
  · rename_i a s
    by_cases h : a = 0
    · simp [neg, mul, h]
    · simp only [neg, mul, h, neg_eq_zero, if_false, Left.neg_neg_iff, pos_decide a h]
      cases s <;> cases decide (a < 0) <;> rfl
  · simp [neg, mul]
  · rename_i s b
    by_cases h : b = 0 <;> simp [neg, mul, h]
  · simp [neg, mul]
  · simp [neg, mul]
  · simp [neg, mul]
  · simp [neg, mul]
  · simp [neg, mul]

theorem of_int_neg (z : Int) : of_int (-z) = neg (of_int z) := by
  unfold of_int
  rw [Int.cast_neg, round_to_nearest_neg]

theorem decode_congr_gain (regs regs' : Fin 1 → DRV_SPI_8301_Vars_t)
    (motors : Fin num_motors → Motor_t) (r : Nat) (m : Fin num_motors)
    (h : (regs m).Ctrl_Reg_2.GAIN = (regs' m).Ctrl_Reg_2.GAIN) :
    phase_current_from_adcval regs motors r m = phase_current_from_adcval regs' motors r m := by
  unfold phase_current_from_adcval
  rw [h]

/-- In binary32 the decoder is odd around the mid-scale code 2048, for every
gain field value and every motor. -/
theorem decode_odd (regs : Fin 1 → DRV_SPI_8301_Vars_t) (motors : Fin num_motors → Motor_t)
    (m : Fin num_motors) (d : Int)
    (h1 : 0 ≤ 2048 + d) (h2 : 2048 + d < 4096) (h3 : 0 ≤ 2048 - d) (h4 : 2048 - d < 4096) :
    phase_current_from_adcval regs motors (2048 + d).toNat m
      = (phase_current_from_adcval regs motors (2048 - d).toNat m).map neg := by
  have ha : wrap_int (int_of_uint32 (2048 + d).toNat - 2 ^ 11) = -(-d) := by
    rw [adcval_bal_of_lt _ (by omega)]; omega
  have hb : wrap_int (int_of_uint32 (2048 - d).toNat - 2 ^ 11) = -d := by
    rw [adcval_bal_of_lt _ (by omega), Int.toNat_of_nonneg h3]; omega
  unfold phase_current_from_adcval
  simp only [ha, hb]
  rw [of_int_neg (-d)]
  cases (regs m).Ctrl_Reg_2.GAIN <;>
    simp only [Option.map, mul_neg_right, mul_neg_left]

/-- In binary32 the mid-scale code decodes to zero, for a listed gain and a
finite shunt conductance. -/
theorem decode_mid_scale (regs : Fin 1 → DRV_SPI_8301_Vars_t)
    (motors : Fin num_motors → Motor_t) (m : Fin num_motors) (g S : ℚ)
    (hg : gain_VpV (regs m).Ctrl_Reg_2.GAIN = some g)
    (hS : (motors m).shunt_conductance = float.finite S) :
    phase_current_from_adcval regs motors 2048 m = some (float.finite 0) := by
  have hb : wrap_int (int_of_uint32 2048 - 2 ^ 11) = 0 := by
    rw [adcval_bal_of_lt _ (by norm_num)]; norm_num
  unfold phase_current_from_adcval
  simp only [hb, amp_gain_value, hS]
  cases hG : (regs m).Ctrl_Reg_2.GAIN <;> rw [hG] at hg <;>
    simp only [gain_VpV, Option.some.injEq] at hg
  · simp [rev_gain_10, of_int, mul_finite, round_to_nearest_zero]
  · simp [rev_gain_20, of_int, mul_finite, round_to_nearest_zero]
  · simp [rev_gain_40, of_int, mul_finite, round_to_nearest_zero]
  · simp [rev_gain_80, of_int, mul_finite, round_to_nearest_zero]
  · exact absurd hg (by simp)

/-- In binary32 the decoder is strictly increasing in the raw sample, for a
listed gain and a shunt conductance between `2^-64` and `2^64`. -/
theorem decode_strict_mono (regs : Fin 1 → DRV_SPI_8301_Vars_t)
    (motors : Fin num_motors → Motor_t) (m : Fin num_motors) (g S : ℚ)
    (hg : gain_VpV (regs m).Ctrl_Reg_2.GAIN = some g)
    (hS : (motors m).shunt_conductance = float.finite S)
    (hS1 : 1 / 2 ^ 64 ≤ S) (hS2 : S ≤ 2 ^ 64)
    (r1 r2 : Nat) (h12 : r1 < r2) (h2 : r2 < 4096) :
    ∃ v1 v2, phase_current_from_adcval regs motors r1 m = some (float.finite v1)
      ∧ phase_current_from_adcval regs motors r2 m = some (float.finite v2)
      ∧ v1 < v2 := by
  have hSpos : 0 < S := lt_of_lt_of_le (by positivity) hS1
  have hSabs : |S| = S := abs_of_pos hSpos
  have hgpos : 0 < g := by
    cases hG : (regs m).Ctrl_Reg_2.GAIN <;> rw [hG] at hg <;>
      simp [gain_VpV] at hg <;> rw [← hg] <;> norm_num
  obtain ⟨v1, e1, b1⟩ := phase_current_near regs motors r1 m g S (by omega) hg hS
    (by rw [hSabs]; exact hS1) (by rw [hSabs]; exact hS2)
  obtain ⟨v2, e2, b2⟩ := phase_current_near regs motors r2 m g S h2 hg hS
    (by rw [hSabs]; exact hS1) (by rw [hSabs]; exact hS2)
  refine ⟨v1, v2, e1, e2, ?_⟩
  have hK : 0 < (33 / 10 / 4096 : ℚ) * (1 / g) * S := by positivity
  have eE : ∀ x : ℚ, (x - 2048) * (33 / 10 / 4096) * (1 / g) * S
      = (x - 2048) * ((33 / 10 / 4096 : ℚ) * (1 / g) * S) := by intro x; ring
  rw [eE, abs_mul, abs_of_pos hK] at b1 b2
  generalize (33 / 10 / 4096 : ℚ) * (1 / g) * S = K at hK b1 b2
  have hr1 : |(r1 : ℚ) - 2048| ≤ 2048 := by
    rw [abs_le]
    have : (r1 : ℚ) < 4096 := by exact_mod_cast (show r1 < 4096 by omega)
    have : (0 : ℚ) ≤ r1 := by positivity
    constructor <;> linarith
  have hr2 : |(r2 : ℚ) - 2048| ≤ 2048 := by
    rw [abs_le]
    have : (r2 : ℚ) < 4096 := by exact_mod_cast h2
    have : (0 : ℚ) ≤ r2 := by positivity
    constructor <;> linarith
  have hstep : (r1 : ℚ) + 1 ≤ r2 := by exact_mod_cast h12
  rw [abs_le] at b1 b2
  have t1 : |(r1 : ℚ) - 2048| * K ≤ 2048 * K := mul_le_mul_of_nonneg_right hr1 hK.le
  have t2 : |(r2 : ℚ) - 2048| * K ≤ 2048 * K := mul_le_mul_of_nonneg_right hr2 hK.le
  have t3 : ((r1 : ℚ) - 2048) * K + K ≤ ((r2 : ℚ) - 2048) * K := by nlinarith
  linarith [b1.2, b2.1]

/-- In binary32, with the 40 V/V gain and the configured motor, every raw sample
decodes to a current of magnitude at most 82.5 A, and at most 75 A exactly for
the raw samples from 187 to 3909. -/
theorem decode_range (regs : Fin 1 → DRV_SPI_8301_Vars_t) (m : Fin num_motors) (r : Nat)
    (hG : (regs m).Ctrl_Reg_2.GAIN = DRV8301_ShuntAmpGain_40VpV) (hr : r < 4096) :
    ∃ v, phase_current_from_adcval regs motor_configs r m = some (float.finite v)
      ∧ |v| ≤ 165 / 2 ∧ (|v| ≤ 75 ↔ 187 ≤ r ∧ r ≤ 3909) := by
  have hm : m = 0 := Subsingleton.elim _ _
  subst hm
  by_cases h0 : r = 0
  · subst h0
    have e : phase_current_from_adcval regs motor_configs 0 0 = some (float.finite (-(165 / 2))) := by
      rw [decode_congr_gain regs (fun _ => { Ctrl_Reg_2 := { GAIN := DRV8301_ShuntAmpGain_40VpV } })
        motor_configs 0 0 hG]
      decide!
    refine ⟨_, e, ?_, ?_⟩
    · rw [abs_neg, abs_of_pos (by norm_num)]
    · rw [abs_neg, abs_of_pos (by norm_num)]
      constructor
      · intro h; norm_num at h
      · intro h; omega
  · obtain ⟨v, e, b⟩ := phase_current_near regs motor_configs r 0 40 (16383999 / 8192) hr
      (by rw [hG]; rfl) shunt_conductance_value
      (by rw [abs_of_pos (by norm_num : (0 : ℚ) < 16383999 / 8192)]; norm_num)
      (by rw [abs_of_pos (by norm_num : (0 : ℚ) < 16383999 / 8192)]; norm_num)
    refine ⟨v, e, ?_⟩
    have eE : ((r : ℚ) - 2048) * (33 / 10 / 4096) * (1 / 40) * (16383999 / 8192)
        = (((r : Int) - 2048 : Int) : ℚ) * (540671967 / 13421772800) := by
      push_cast
      ring
    rw [eE, abs_mul, abs_of_pos (by norm_num : (0 : ℚ) < 540671967 / 13421772800),
      ← Int.cast_abs] at b
    have hv1 : |v| ≤ ((|(r : Int) - 2048| : Int) : ℚ) * (540671967 / 13421772800)
        * (1 + 1 / 4000000) := by
      have := abs_sub_abs_le_abs_sub v ((((r : Int) - 2048 : Int) : ℚ) * (540671967 / 13421772800))
      rw [abs_mul, abs_of_pos (by norm_num : (0 : ℚ) < 540671967 / 13421772800),
        ← Int.cast_abs] at this
      linarith
    have hv2 : ((|(r : Int) - 2048| : Int) : ℚ) * (540671967 / 13421772800)
        * (1 - 1 / 4000000) ≤ |v| := by
      have hb' : |(((r : Int) - 2048 : Int) : ℚ) * (540671967 / 13421772800) - v|
          ≤ ((|(r : Int) - 2048| : Int) : ℚ) * (540671967 / 13421772800) / 4000000 := by
        rw [abs_sub_comm]; exact b
      have := abs_sub_abs_le_abs_sub ((((r : Int) - 2048 : Int) : ℚ) * (540671967 / 13421772800)) v
      rw [abs_mul, abs_of_pos (by norm_num : (0 : ℚ) < 540671967 / 13421772800),
        ← Int.cast_abs] at this
      linarith
    have hA : |(r : Int) - 2048| ≤ 2047 := by
      rw [abs_le]; constructor <;> omega
    have hAq : ((|(r : Int) - 2048| : Int) : ℚ) ≤ 2047 := by exact_mod_cast hA
    refine ⟨by linarith, ⟨fun h => ?_, fun h => ?_⟩⟩
    · by_contra hcon
      have h1862 : (1862 : Int) ≤ |(r : Int) - 2048| := by
        rw [le_abs]
        omega
      have : (1862 : ℚ) ≤ ((|(r : Int) - 2048| : Int) : ℚ) := by exact_mod_cast h1862
      linarith
    · have h1861 : |(r : Int) - 2048| ≤ 1861 := by
        rw [abs_le]; constructor <;> omega
      have : ((|(r : Int) - 2048| : Int) : ℚ) ≤ 1861 := by exact_mod_cast h1861
      linarith

end binary32

/-! ## The current decoder: scale, symmetry, monotonicity, range -/

/-- C4, as stated, fails: in binary32 the configured shunt conductance
`1.0f/0.0005f` is 16383999/8192 S, not 2000 S, and at raw sample 2148 and
40 V/V the function returns 8447999/2097152 A, which is neither
`100 * (3.3 / 4096) * (1 / 40)` times that conductance nor 16500/4096 A. -/
theorem phase_current_from_adcval_exact_counterexample :
    (binary32.motor_configs 0).shunt_conductance = binary32.float.finite (16383999 / 8192)
      ∧ binary32.phase_current_from_adcval
          (fun _ => { Ctrl_Reg_2 := { GAIN := DRV8301_ShuntAmpGain_40VpV } })
          binary32.motor_configs 2148 0
        = some (binary32.float.finite (8447999 / 2097152))
      ∧ (8447999 / 2097152 : ℚ)
          ≠ ((2148 : ℚ) - 2048) * (33 / 10 / 4096) * (1 / 40) * (16383999 / 8192)
      ∧ (8447999 / 2097152 : ℚ) ≠ ((2148 : ℚ) - 2048) * (33 / 10 / 4096) * (1 / 40) * 2000 := by
  refine ⟨binary32.shunt_conductance_value, binary32.decode_2148, ?_, ?_⟩ <;> norm_num

/-- C4, amended: for a raw sample `r` in `[0, 4096)`, a gain field holding the
enumerator of `g` V/V (`g` one of 10, 20, 40, 80) and a finite shunt
conductance `S` of magnitude between `2^-64` and `2^64`, the function returns
a finite binary32 value within one part in 4000000 of
`(r - 2048) * (3.3 / 4096) * (1 / g) * S`. -/
theorem phase_current_from_adcval_near (gate_driver_regs : Fin 1 → DRV_SPI_8301_Vars_t)
    (motors : Fin num_motors → binary32.Motor_t) (r : Nat) (m : Fin num_motors) (g S : ℚ)
    (hr : r < 4096) (hg : gain_VpV (gate_driver_regs m).Ctrl_Reg_2.GAIN = some g)
    (hS : (motors m).shunt_conductance = binary32.float.finite S)
    (hS1 : 1 / 2 ^ 64 ≤ |S|) (hS2 : |S| ≤ 2 ^ 64) :
    (∃ v, binary32.phase_current_from_adcval gate_driver_regs motors r m
          = some (binary32.float.finite v)
        ∧ |v - ((r : ℚ) - 2048) * (33 / 10 / 4096) * (1 / g) * S|
            ≤ |((r : ℚ) - 2048) * (33 / 10 / 4096) * (1 / g) * S| / 4000000)
      ∧ (g = 10 ∨ g = 20 ∨ g = 40 ∨ g = 80) := by
  refine ⟨binary32.phase_current_near gate_driver_regs motors r m g S hr hg hS hS1 hS2, ?_⟩
  cases hG : (gate_driver_regs m).Ctrl_Reg_2.GAIN <;> rw [hG] at hg <;>
    simp [gain_VpV] at hg <;> simp [← hg]

/-- C4, amended, the worked example: raw sample 2148, gain 40 V/V and the
configured motor decode to 8447999/2097152 A, within one part in 4000000 of
the exact product and within 0.01 A of 4.03 A. -/
theorem phase_current_from_adcval_near_witness :
    ∃ v, binary32.phase_current_from_adcval
          (fun _ => { Ctrl_Reg_2 := { GAIN := DRV8301_ShuntAmpGain_40VpV } })
          binary32.motor_configs 2148 0 = some (binary32.float.finite v)
      ∧ |v - ((2148 : Nat) - 2048 : ℚ) * (33 / 10 / 4096) * (1 / 40) * (16383999 / 8192)|
          ≤ |((2148 : Nat) - 2048 : ℚ) * (33 / 10 / 4096) * (1 / 40) * (16383999 / 8192)| / 4000000
      ∧ v = 8447999 / 2097152
      ∧ |v - 403 / 100| ≤ 1 / 100 := by
  obtain ⟨v, h1, h2⟩ := (phase_current_from_adcval_near
    (fun _ => { Ctrl_Reg_2 := { GAIN := DRV8301_ShuntAmpGain_40VpV } })
    binary32.motor_configs 2148 0 40 (16383999 / 8192) (by norm_num) rfl
    binary32.shunt_conductance_value
    (by rw [abs_of_pos (by norm_num : (0 : ℚ) < 16383999 / 8192)]; norm_num)
    (by rw [abs_of_pos (by norm_num : (0 : ℚ) < 16383999 / 8192)]; norm_num)).1
  have hv : v = 8447999 / 2097152 := by
    have h3 := binary32.decode_2148
    rw [h1] at h3
    injection h3 with h4
    injection h4
  refine ⟨v, h1, h2, hv, ?_⟩
  rw [hv, abs_le]
  constructor <;> norm_num

/-- C10, as stated, fails at raw sample 0: after startup (configured motor,
40 V/V) code 0 decodes to -82.5 A, whose magnitude exceeds 75 A. -/
theorem phase_current_range_counterexample :
    phase_current_from_adcval (init_motor_control (reset_state DRV8301_ShuntAmpGain_10VpV 8192))
        { rev_gain := 0, phC_current := 0 } 0 0 = -(165 / 2)
      ∧ ¬ |phase_current_from_adcval
            (init_motor_control (reset_state DRV8301_ShuntAmpGain_10VpV 8192))
            { rev_gain := 0, phC_current := 0 } 0 0| ≤ 75 := by
  have h := phase_current_startup (reset_state DRV8301_ShuntAmpGain_10VpV 8192)
    { rev_gain := 0, phC_current := 0 } 0 0 (by norm_num) rfl
  rw [h]
  refine ⟨by norm_num, ?_⟩
  rw [abs_le]
  norm_num

/-- C10, amended: with the configured motor and the 40 V/V gain written at
startup, every raw sample in `[0, 4096)` decodes to a current of magnitude at
most 82.5 A; the magnitude is within the configured `maxcurrent` of 75 A
exactly for the raw samples from 187 to 3909. -/
theorem phase_current_range (s : State) (u : Uninit) (r : Nat)
    (hm : s.motor_configs = motor_configs) (hr : r < 4096) :
    |phase_current_from_adcval (init_motor_control s) u r 0| ≤ 165 / 2
      ∧ (|phase_current_from_adcval (init_motor_control s) u r 0|
            ≤ ((init_motor_control s).motor_configs 0).maxcurrent
          ↔ 187 ≤ r ∧ r ≤ 3909) := by
  rw [phase_current_startup s u r 0 hr hm, motor_configs_init_motor_control, hm]
  simp only [motor_configs, abs_le]
  have e : ((r : ℚ) - 2048) * (165 / 4096) = (((165 * ((r : Int) - 2048) : Int)) : ℚ) / 4096 := by
    push_cast
    ring
  rw [e]
  have h4096 : (0 : ℚ) < 4096 := by norm_num
  refine ⟨⟨?_, ?_⟩, ⟨fun h => ?_, fun h => ⟨?_, ?_⟩⟩⟩
  · rw [le_div_iff₀ h4096]
    have : (-(165 * 2048) : Int) ≤ 165 * ((r : Int) - 2048) := by omega
    have := (Int.cast_le (R := ℚ)).mpr this
    push_cast at this ⊢
    linarith
  · rw [div_le_iff₀ h4096]
    have : 165 * ((r : Int) - 2048) ≤ (165 * 2048 : Int) := by omega
    have := (Int.cast_le (R := ℚ)).mpr this
    push_cast at this ⊢
    linarith
  · obtain ⟨ha, hb⟩ := h
    rw [le_div_iff₀ h4096] at ha
    rw [div_le_iff₀ h4096] at hb
    have ha2 : ((-307200 : Int) : ℚ) ≤ ((165 * ((r : Int) - 2048) : Int) : ℚ) := by
      push_cast at ha ⊢
      linarith
    have hb2 : ((165 * ((r : Int) - 2048) : Int) : ℚ) ≤ ((307200 : Int) : ℚ) := by
      push_cast at hb ⊢
      linarith
    have ha3 := Int.cast_le.mp ha2
    have hb3 := Int.cast_le.mp hb2
    omega
  · rw [le_div_iff₀ h4096]
    have : (-307065 : Int) ≤ 165 * ((r : Int) - 2048) := by omega
    have := (Int.cast_le (R := ℚ)).mpr this
    push_cast at this ⊢
    linarith
  · rw [div_le_iff₀ h4096]
    have : 165 * ((r : Int) - 2048) ≤ (307065 : Int) := by omega
    have := (Int.cast_le (R := ℚ)).mpr this
    push_cast at this ⊢
    linarith

/-- C10, amended, at the lowest code: after startup code 0 decodes within
82.5 A, and it is not within `maxcurrent`. -/
theorem phase_current_range_witness :
    |phase_current_from_adcval (init_motor_control (reset_state DRV8301_ShuntAmpGain_10VpV 8192))
        { rev_gain := 0, phC_current := 0 } 0 0| ≤ 165 / 2 :=
  (phase_current_range (reset_state DRV8301_ShuntAmpGain_10VpV 8192)
    { rev_gain := 0, phC_current := 0 } 0 rfl (by decide)).1

/-! ## The synchronizer and the mailbox -/

/-- C1: for every sequence of (channel-A, channel-B) notification pairs delivered
in that order, the callback emits one Paired Observation per pair. The
channel-A notification only stores its decoded sample in the latch; the
channel-B notification that follows makes one enqueue attempt with the item
(decoded A sample, decoded B sample) of that pair, which is appended to the
mailbox when a slot is free and dropped otherwise; over the whole sequence the
mailbox gains, in order, the observations of the pairs that found a slot. -/
theorem pwm_trig_adc_cb_pairs (u : Uninit) (s : State) (a b : Nat) (ps : List (Nat × Nat)) :
    pwm_trig_adc_cb u { self := ADC_Handle.hadc2, JDR1 := a } s
        = Outcome.returned () { s with phB_current := phase_current_from_adcval s u a 0 }
      ∧ pwm_trig_adc_cb u { self := ADC_Handle.hadc3, JDR1 := b }
            { s with phB_current := phase_current_from_adcval s u a 0 }
          = Outcome.returned () (emit_pair u s (a, b))
      ∧ deliver u (cycles ps) s = Outcome.returned () (ps.foldl (emit_pair u) s)
      ∧ (ps.foldl (emit_pair u) s).M0_Iph_queue.queue
          = s.M0_Iph_queue.queue
            ++ (ps.map (paired_observation s u)).take
                (s.M0_Iph_queue.queue_sz - s.M0_Iph_queue.allocated) := by
  exact ⟨cb_hadc2 u s a, cb_hadc3_after_hadc2 u s a b, deliver_cycles u ps s,
    (foldl_emit_pair u ps s).2.2.2.2.2⟩

/-- C8: a conversion-complete notification whose source is neither `hadc2` nor
`hadc3` makes `pwm_trig_adc_cb` halt in `safe_assert(0)`, in the state it was
called in: nothing is enqueued, the mailbox and the latch are unchanged, and
the callback does not return. -/
theorem pwm_trig_adc_cb_unknown_channel (u : Uninit) (s : State) (hadc : ADC_HandleTypeDef)
    (h2 : hadc.self ≠ ADC_Handle.hadc2) (h3 : hadc.self ≠ ADC_Handle.hadc3) :
    pwm_trig_adc_cb u hadc s = Outcome.halted s
      ∧ ∀ rest, deliver u (hadc :: rest) s = Outcome.halted s := by
  refine ⟨cb_other u s hadc h2 h3, fun rest => ?_⟩
  simp only [deliver, HAL_ADCEx_InjectedConvCpltCallback, cb_other u s hadc h2 h3, Outcome.bind]

/-- C8 for a notification from a third ADC handle after startup. -/
theorem pwm_trig_adc_cb_unknown_channel_witness :
    pwm_trig_adc_cb { rev_gain := 0, phC_current := 0 } { self := ADC_Handle.other 1, JDR1 := 2148 }
        (init_motor_control (reset_state DRV8301_ShuntAmpGain_10VpV 8192))
      = Outcome.halted (init_motor_control (reset_state DRV8301_ShuntAmpGain_10VpV 8192)) :=
  (pwm_trig_adc_cb_unknown_channel { rev_gain := 0, phC_current := 0 }
    (init_motor_control (reset_state DRV8301_ShuntAmpGain_10VpV 8192))
    { self := ADC_Handle.other 1, JDR1 := 2148 } (by decide) (by decide)).1


/-- C2, as stated, fails: after startup the cycle (2148, 2048) followed by a second
channel-B notification (raw 1948) with no channel-A notification in between
puts a second observation in the mailbox whose phase B is the decoded
channel-A sample 2148 of the earlier cycle; and a channel-B notification that
is the very first event enqueues an observation whose phase B is the initial 0
of the latch. -/
theorem pwm_trig_adc_cb_stale_latch_counterexample :
    (∃ s2 s3,
        deliver { rev_gain := 0, phC_current := 0 } (cycle (2148, 2048))
            (init_motor_control (reset_state DRV8301_ShuntAmpGain_10VpV 8192))
          = Outcome.returned () s2
        ∧ s2.M0_Iph_queue.queue
            = [{ current_phB := phase_current_from_adcval
                    (init_motor_control (reset_state DRV8301_ShuntAmpGain_10VpV 8192))
                    { rev_gain := 0, phC_current := 0 } 2148 0
                 current_phC := phase_current_from_adcval
                    (init_motor_control (reset_state DRV8301_ShuntAmpGain_10VpV 8192))
                    { rev_gain := 0, phC_current := 0 } 2048 0 }]
        ∧ pwm_trig_adc_cb { rev_gain := 0, phC_current := 0 }
            { self := ADC_Handle.hadc3, JDR1 := 1948 } s2 = Outcome.returned () s3
        ∧ s3.M0_Iph_queue.queue
            = [{ current_phB := phase_current_from_adcval
                    (init_motor_control (reset_state DRV8301_ShuntAmpGain_10VpV 8192))
                    { rev_gain := 0, phC_current := 0 } 2148 0
                 current_phC := phase_current_from_adcval
                    (init_motor_control (reset_state DRV8301_ShuntAmpGain_10VpV 8192))
                    { rev_gain := 0, phC_current := 0 } 2048 0 },
               { current_phB := phase_current_from_adcval
                    (init_motor_control (reset_state DRV8301_ShuntAmpGain_10VpV 8192))
                    { rev_gain := 0, phC_current := 0 } 2148 0
                 current_phC := phase_current_from_adcval
                    (init_motor_control (reset_state DRV8301_ShuntAmpGain_10VpV 8192))
                    { rev_gain := 0, phC_current := 0 } 1948 0 }])
      ∧ ∃ s1,
        pwm_trig_adc_cb { rev_gain := 0, phC_current := 0 }
            { self := ADC_Handle.hadc3, JDR1 := 2148 }
            (init_motor_control (reset_state DRV8301_ShuntAmpGain_10VpV 8192))
          = Outcome.returned () s1
        ∧ s1.M0_Iph_queue.queue
            = [{ current_phB := 0
                 current_phC := phase_current_from_adcval
                    (init_motor_control (reset_state DRV8301_ShuntAmpGain_10VpV 8192))
                    { rev_gain := 0, phC_current := 0 } 2148 0 }] := by
  have h := stale_latch_trace { rev_gain := 0, phC_current := 0 }
    (init_motor_control (reset_state DRV8301_ShuntAmpGain_10VpV 8192)) 2148 2048 1948
    (M0_Iph_queue_init_motor_control _)
  have hl : (init_motor_control (reset_state DRV8301_ShuntAmpGain_10VpV 8192)).phB_current = 0 := by
    rw [phB_current_init_motor_control]; rfl
  rw [hl] at h
  exact h

/-- C2, amended: a channel-B notification is not checked against a preceding
channel-A notification. Whenever a mailbox slot is free it enqueues an
observation whose phase B is the present content of the latch and leaves the
latch as it is; so a channel-B notification that follows a complete cycle and
finds a slot free enqueues a second observation carrying the channel-A sample
of that cycle. -/
theorem pwm_trig_adc_cb_hadc3_pairs_latch (u : Uninit) (s : State) (a b1 b2 : Nat)
    (h : s.M0_Iph_queue.allocated < s.M0_Iph_queue.queue_sz) :
    pwm_trig_adc_cb u { self := ADC_Handle.hadc3, JDR1 := b2 } s
        = Outcome.returned ()
            { s with M0_Iph_queue :=
                { s.M0_Iph_queue with
                  allocated := s.M0_Iph_queue.allocated + 1
                  queue := s.M0_Iph_queue.queue ++
                    [{ current_phB := s.phB_current
                       current_phC := phase_current_from_adcval s u b2 0 }] } }
      ∧ ∃ s1, deliver u (cycle (a, b1)) s = Outcome.returned () s1
          ∧ s1.phB_current = phase_current_from_adcval s u a 0
          ∧ s1.M0_Iph_queue.queue
              = s.M0_Iph_queue.queue ++
                  [{ current_phB := phase_current_from_adcval s u a 0
                     current_phC := phase_current_from_adcval s u b1 0 }]
          ∧ (s1.M0_Iph_queue.allocated < s1.M0_Iph_queue.queue_sz →
              ∃ s2, pwm_trig_adc_cb u { self := ADC_Handle.hadc3, JDR1 := b2 } s1
                  = Outcome.returned () s2
                ∧ s2.phB_current = phase_current_from_adcval s u a 0
                ∧ s2.M0_Iph_queue.queue
                    = s.M0_Iph_queue.queue ++
                        [{ current_phB := phase_current_from_adcval s u a 0
                           current_phC := phase_current_from_adcval s u b1 0 },
                         { current_phB := phase_current_from_adcval s u a 0
                           current_phC := phase_current_from_adcval s u b2 0 }]) :=
  hadc3_pairs_latch u s a b1 b2 h

/-- C2, amended, in the state after startup and one cycle (2148, 2048), where one
slot of the two is free: a channel-B notification with raw sample 1948
enqueues an observation whose phase B is the latch content; and from the
state after startup, the same notification after that cycle finds the slot
free. -/
theorem pwm_trig_adc_cb_hadc3_pairs_latch_witness :
    (∃ s', pwm_trig_adc_cb { rev_gain := 0, phC_current := 0 }
          { self := ADC_Handle.hadc3, JDR1 := 1948 }
          (emit_pair { rev_gain := 0, phC_current := 0 }
            (init_motor_control (reset_state DRV8301_ShuntAmpGain_10VpV 8192)) (2148, 2048))
        = Outcome.returned () s'
      ∧ s'.M0_Iph_queue.queue
          = (emit_pair { rev_gain := 0, phC_current := 0 }
              (init_motor_control (reset_state DRV8301_ShuntAmpGain_10VpV 8192))
              (2148, 2048)).M0_Iph_queue.queue
            ++ [{ current_phB := (emit_pair { rev_gain := 0, phC_current := 0 }
                    (init_motor_control (reset_state DRV8301_ShuntAmpGain_10VpV 8192))
                    (2148, 2048)).phB_current
                  current_phC := phase_current_from_adcval
                    (emit_pair { rev_gain := 0, phC_current := 0 }
                      (init_motor_control (reset_state DRV8301_ShuntAmpGain_10VpV 8192))
                      (2148, 2048))
                    { rev_gain := 0, phC_current := 0 } 1948 0 }])
      ∧ ∃ s2, deliver { rev_gain := 0, phC_current := 0 }
            (cycle (2148, 2048) ++ [{ self := ADC_Handle.hadc3, JDR1 := 1948 }])
            (init_motor_control (reset_state DRV8301_ShuntAmpGain_10VpV 8192))
          = Outcome.returned () s2
        ∧ s2.phB_current
            = phase_current_from_adcval
                (init_motor_control (reset_state DRV8301_ShuntAmpGain_10VpV 8192))
                { rev_gain := 0, phC_current := 0 } 2148 0 := by
  have hq := M0_Iph_queue_init_motor_control (reset_state DRV8301_ShuntAmpGain_10VpV 8192)
  have hfree : (emit_pair { rev_gain := 0, phC_current := 0 }
      (init_motor_control (reset_state DRV8301_ShuntAmpGain_10VpV 8192))
      (2148, 2048)).M0_Iph_queue.allocated
        < (emit_pair { rev_gain := 0, phC_current := 0 }
            (init_motor_control (reset_state DRV8301_ShuntAmpGain_10VpV 8192))
            (2148, 2048)).M0_Iph_queue.queue_sz := by
    simp [emit_pair, hq, osMailCreate]
  have h1 := (pwm_trig_adc_cb_hadc3_pairs_latch { rev_gain := 0, phC_current := 0 }
    (emit_pair { rev_gain := 0, phC_current := 0 }
      (init_motor_control (reset_state DRV8301_ShuntAmpGain_10VpV 8192)) (2148, 2048))
    0 0 1948 hfree).1
  obtain ⟨s1, e1, _, _, e4⟩ := (pwm_trig_adc_cb_hadc3_pairs_latch
    { rev_gain := 0, phC_current := 0 }
    (init_motor_control (reset_state DRV8301_ShuntAmpGain_10VpV 8192)) 2148 2048 1948
    (by rw [hq]; decide)).2
  have hs1 : s1 = emit_pair { rev_gain := 0, phC_current := 0 }
      (init_motor_control (reset_state DRV8301_ShuntAmpGain_10VpV 8192)) (2148, 2048) := by
    have := deliver_cycle { rev_gain := 0, phC_current := 0 }
      (init_motor_control (reset_state DRV8301_ShuntAmpGain_10VpV 8192)) (2148, 2048)
    rw [e1] at this
    injection this
  obtain ⟨s2, e5, e6, _⟩ := e4 (by rw [hs1]; exact hfree)
  refine ⟨⟨_, h1, rfl⟩, s2, ?_, e6⟩
  rw [deliver_append, e1]
  simp only [Outcome.bind, deliver, HAL_ADCEx_InjectedConvCpltCallback, e5]

/-- C3: with the mail queue of capacity 2 that startup creates, after any number of
complete (channel-A, channel-B) cycles with no receive in between the mailbox
holds exactly the first `min n 2` observations in enqueue order. For three
cycles, the third channel-B notification finds the pool exhausted: the
callback returns (it does not halt) and leaves the state, the mailbox
included, unchanged; the next two turns of the motor thread receive the first
and then the second observation, and a third turn finds the mailbox empty. -/
theorem mailbox_capacity_two (u : Uninit) (s : State) (ps : List (Nat × Nat))
    (p1 p2 p3 : Nat × Nat) :
    (∃ sn, deliver u (cycles ps) (init_motor_control s) = Outcome.returned () sn
        ∧ sn.M0_Iph_queue.queue
            = (ps.map (paired_observation (init_motor_control s) u)).take 2
        ∧ sn.M0_Iph_queue.queue.length = min ps.length 2)
      ∧ ∃ sa s4 s5,
        deliver u (cycles [p1, p2] ++ [{ self := ADC_Handle.hadc2, JDR1 := p3.1 }])
            (init_motor_control s) = Outcome.returned () sa
          ∧ sa.M0_Iph_queue.queue
              = [paired_observation (init_motor_control s) u p1,
                 paired_observation (init_motor_control s) u p2]
          ∧ pwm_trig_adc_cb u { self := ADC_Handle.hadc3, JDR1 := p3.2 } sa
              = Outcome.returned () sa
          ∧ deliver u (cycles [p1, p2, p3]) (init_motor_control s) = Outcome.returned () sa
          ∧ motor_thread_loop sa
              = Outcome.returned (paired_observation (init_motor_control s) u p1) s4
          ∧ motor_thread_loop s4
              = Outcome.returned (paired_observation (init_motor_control s) u p2) s5
          ∧ motor_thread_loop s5 = Outcome.blocked s5 := by
  refine ⟨⟨_, deliver_cycles u ps _, ?_, ?_⟩,
    three_cycles_trace u _ p1 p2 p3 (M0_Iph_queue_init_motor_control s)⟩
  · rw [(foldl_emit_pair u ps (init_motor_control s)).2.2.2.2.2,
      M0_Iph_queue_init_motor_control]
    simp [osMailCreate]
  · rw [(foldl_emit_pair u ps (init_motor_control s)).2.2.2.2.2,
      M0_Iph_queue_init_motor_control]
    simp [osMailCreate, Nat.min_comm]


/-! ## The PWM placeholder of the motor thread -/

/-- C7, as stated, fails for a period register below 800: with `ARR = 100`, the
turn of the motor thread that receives the observation of the first cycle
writes `CCR1 = 2^32 - 350` and `CCR2 = CCR3 = 450`, all above `ARR`. -/
theorem motor_thread_compare_counterexample :
    ∃ s1 mail s2,
      deliver { rev_gain := 0, phC_current := 0 } (cycle (2148, 2048))
          (init_motor_control (reset_state DRV8301_ShuntAmpGain_10VpV 100))
        = Outcome.returned () s1
      ∧ motor_thread_loop s1 = Outcome.returned mail s2
      ∧ s2.htim1.ARR = 100
      ∧ s2.htim1.CCR1 = 4294966946 ∧ s2.htim1.CCR2 = 450 ∧ s2.htim1.CCR3 = 450
      ∧ ¬ s2.htim1.CCR1 ≤ s2.htim1.ARR ∧ ¬ s2.htim1.CCR2 ≤ s2.htim1.ARR := by
  have hq := M0_Iph_queue_init_motor_control (reset_state DRV8301_ShuntAmpGain_10VpV 100)
  have hA : (emit_pair { rev_gain := 0, phC_current := 0 }
      (init_motor_control (reset_state DRV8301_ShuntAmpGain_10VpV 100)) (2148, 2048)).htim1.ARR
        = 100 := ARR_init_motor_control _
  obtain ⟨s2, h1, h2, h3, h4, h5, _, _⟩ := motor_thread_loop_compare
    (emit_pair { rev_gain := 0, phC_current := 0 }
      (init_motor_control (reset_state DRV8301_ShuntAmpGain_10VpV 100)) (2148, 2048))
    (paired_observation (init_motor_control (reset_state DRV8301_ShuntAmpGain_10VpV 100))
      { rev_gain := 0, phC_current := 0 } (2148, 2048)) []
    (by simp [emit_pair, hq, osMailCreate]) (by rw [hA]; norm_num)
  rw [hA] at h2 h3 h4 h5
  refine ⟨_, _, s2, deliver_cycle _ _ _, h1, h2, ?_, h4, h5, ?_, ?_⟩
  · rw [h3]; decide
  · rw [h3, h2]; decide
  · rw [h4, h2]; decide

/-- C7, amended: on each Paired Observation received, the motor thread writes
`CCR1 = ARR/2 - 400` (wrapping below zero to a `uint32_t`) and
`CCR2 = CCR3 = ARR/2 + 400`, leaving `ARR` as it is; the three compare values
lie within `[0, ARR]` exactly when `ARR` is at least 800. -/
theorem motor_thread_compare (s : State) (mail : Iph_BC_queue_item_t)
    (rest : List Iph_BC_queue_item_t) (hq : s.M0_Iph_queue.queue = mail :: rest)
    (hARR : s.htim1.ARR < 2 ^ 32) :
    ∃ s', motor_thread_loop s = Outcome.returned mail s'
      ∧ s'.htim1.ARR = s.htim1.ARR
      ∧ s'.htim1.CCR1 = uint32_of_int (((s.htim1.ARR / 2 : Nat) : Int) - 400)
      ∧ s'.htim1.CCR2 = s.htim1.ARR / 2 + 400
      ∧ s'.htim1.CCR3 = s.htim1.ARR / 2 + 400
      ∧ (800 ≤ s.htim1.ARR → s'.htim1.CCR1 = s.htim1.ARR / 2 - 400)
      ∧ ((s'.htim1.CCR1 ≤ s'.htim1.ARR ∧ s'.htim1.CCR2 ≤ s'.htim1.ARR
            ∧ s'.htim1.CCR3 ≤ s'.htim1.ARR) ↔ 800 ≤ s.htim1.ARR) :=
  motor_thread_loop_compare s mail rest hq hARR

/-- C7, amended, with `ARR = 8192` and one observation in the mailbox: the
compare values written are 3696, 4496 and 4496. -/
theorem motor_thread_compare_witness :
    ∃ s', motor_thread_loop
          { reset_state DRV8301_ShuntAmpGain_40VpV 8192 with
            M0_Iph_queue :=
              { queue_sz := 2, allocated := 1
                queue := [{ current_phB := 0, current_phC := 0 }] } }
        = Outcome.returned { current_phB := 0, current_phC := 0 } s'
      ∧ s'.htim1.CCR1 = 3696 ∧ s'.htim1.CCR2 = 4496 ∧ s'.htim1.CCR3 = 4496 := by
  obtain ⟨s', h1, _, _, h4, h5, h6, _⟩ := motor_thread_compare
    { reset_state DRV8301_ShuntAmpGain_40VpV 8192 with
      M0_Iph_queue :=
        { queue_sz := 2, allocated := 1, queue := [{ current_phB := 0, current_phC := 0 }] } }
    { current_phB := 0, current_phC := 0 } [] rfl (by simp [reset_state])
  exact ⟨s', h1, h6 (by simp [reset_state]), h4, h5⟩

/-! ## The gain lookup on a value outside the enumeration -/

end ODrive
